import Mathlib

/-!
# taskctl: stage bookkeeping and the task output coordinator

A shallow embedding of `pkg/scheduler/stage.go` and `internal/output/output.go`.

* `Stage` with `UpdateStatus`, `ReadStatus`, `Duration`.
* `NewTaskOutput`, `TaskOutput.Close`.
* `pipe`, the byte-at-a-time copy loop, as a function of a scripted reader.
* `Stream`, as a step function over three threads (the caller and the two
  reader goroutines) driven by an explicit schedule. The write to the shared
  `bytes.Buffer` is taken statement by statement, since nothing in the code keeps
  the two readers from running it at the same time.

Go values that the code only passes around are modelled by what the code can
observe of them: a reader by the sequence of results its `Read` calls return,
a writer by the bytes it has accepted and by how it answers a `Write`.
-/

namespace Taskctl

/-! ## Go runtime values -/

/-- One byte of process output. -/
abbrev Byte := Fin 256

/-- Go `error` values that the code can distinguish: the sentinel `io.EOF`, the
sentinel `io.ErrShortWrite` produced by `io.MultiWriter`, and any other error,
identified by its message. A nil error is `none : Option Error`. -/
inductive Error where
  | EOF
  | ErrShortWrite
  | msg (text : String)
deriving DecidableEq, Repr

/-- A Go channel on which nothing is ever sent: only whether it has been closed matters. -/
structure Channel where
  closed : Bool
deriving DecidableEq, Repr

/-- Go `close(ch)`: closing a closed channel panics. -/
def Channel.close (c : Channel) : Except String Channel :=
  if c.closed then Except.error "close of closed channel" else Except.ok { closed := true }

/-! ## pkg/scheduler/stage.go -/

def StatusWaiting : Int := 0
def StatusRunning : Int := 1
def StatusSkipped : Int := 2
def StatusDone : Int := 3
def StatusError : Int := 4
def StatusCanceled : Int := 5

/-- Go `int32`: the integers from -2^31 to 2^31 - 1. -/
def GoInt32 : Type := { i : Int // -2147483648 ≤ i ∧ i < 2147483648 }

/-- The zero value of `int32`. -/
def GoInt32.zero : GoInt32 := ⟨0, by decide⟩

/-- Smallest `time.Duration` (a signed 64-bit nanosecond count). -/
def minDuration : Int := -9223372036854775808

/-- Largest `time.Duration`. -/
def maxDuration : Int := 9223372036854775807

/-- Go `time.Time`: a wall-clock instant (`sec` seconds since January 1, year 1, plus
`nsec` nanoseconds) and, when the value came from `time.Now`, a monotonic clock
reading in nanoseconds. -/
structure Time where
  sec : Int
  nsec : Int
  mono : Option Int
deriving DecidableEq, Repr

/-- The zero value of `time.Time`. -/
def Time.zero : Time := { sec := 0, nsec := 0, mono := none }

/-- Saturation of an exact nanosecond count to the range of `time.Duration`. -/
def saturate (d : Int) : Int :=
  if d < minDuration then minDuration
  else if maxDuration < d then maxDuration
  else d

/-- Go `time.Time.Sub` as the standard library documents it: the duration `t - u`,
computed on the monotonic readings when both values carry one and on the wall clock
otherwise; when the result does not fit a `Duration`, the maximum (or minimum)
duration is returned. -/
def Time.Sub (t u : Time) : Int :=
  match t.mono, u.mono with
  | some a, some b => saturate (a - b)
  | _, _ => saturate ((t.sec - u.sec) * 1000000000 + (t.nsec - u.nsec))

/-- Modelled from the spec: `variables.Container` is declared in `pkg/variables`, outside
the files at hand; the spec describes the environment and variable bindings as mappings
of string key to string value. -/
abbrev Container := List (String × String)

/-- The `Stage` struct. The two pointer fields (`Task`, `Pipeline`) point to types
declared elsewhere and are kept as optional handles; no method of `Stage` follows them. -/
structure Stage where
  Name : String
  Condition : String
  Task : Option String
  Pipeline : Option String
  DependsOn : List String
  Dir : String
  AllowFailure : Bool
  Status : GoInt32
  Env : Container
  Variables : Container
  Start : Time
  End : Time

/-- The zero value of `Stage`. -/
def Stage.zero : Stage :=
  { Name := "", Condition := "", Task := none, Pipeline := none, DependsOn := [], Dir := "",
    AllowFailure := false, Status := GoInt32.zero, Env := [], Variables := [],
    Start := Time.zero, End := Time.zero }

/-- `func (s *Stage) UpdateStatus(status int32)`: `atomic.StoreInt32(&s.Status, status)`. -/
def Stage.UpdateStatus (s : Stage) (status : GoInt32) : Stage :=
  { s with Status := status }

/-- `func (s *Stage) ReadStatus() int32`: `atomic.LoadInt32(&s.Status)`. -/
def Stage.ReadStatus (s : Stage) : GoInt32 :=
  s.Status

/-- `func (s *Stage) Duration() time.Duration`: `s.End.Sub(s.Start)`. -/
def Stage.Duration (s : Stage) : Int :=
  s.End.Sub s.Start

/-! ## internal/output/output.go: construction and shutdown -/

def OutputFormatRaw : String := "raw"
def OutputFormatPrefixed : String := "prefixed"
def OutputFormatCockpit : String := "cockpit"

/-- The value of a package-level `io.Writer` variable (`Stdout`, `Stderr`): the process
stream it starts as, or whatever `SetStdout` / `SetStderr` stored. -/
inductive Target where
  | osStdout
  | osStderr
  | custom (id : Nat)
deriving DecidableEq, Repr

/-- Modelled from the spec: the constructors `NewRawOutputWriter`,
`NewPrefixedOutputWriter` and `NewCockpitOutputWriter` live in other files of the
package; the spec names the three variants raw, prefixed and cockpit, the last of which
is handed the coordinator's shutdown channel. A decorator is recorded as the constructor
call that builds it, with the arguments of that call. -/
inductive DecoratedOutputWriter where
  | RawOutputWriter (w : Target)
  | PrefixedOutputWriter (w : Target)
  | CockpitOutputWriter (w : Target) (closeCh : Channel)
deriving DecidableEq, Repr

/-- The `TaskOutput` struct: `decorator` is a nil interface until assigned, `lock` is
true while the mutex is held. -/
structure TaskOutput where
  decorator : Option DecoratedOutputWriter
  lock : Bool
  closeCh : Channel
deriving DecidableEq, Repr

/-- What a call of `NewTaskOutput` yields: the two return values, and the decorator
constructor calls it made. -/
structure Constructed where
  o : Option TaskOutput
  err : Option Error
  created : List DecoratedOutputWriter
deriving DecidableEq, Repr

/-- `func NewTaskOutput(format string) (*TaskOutput, error)`; `Stdout` is the current
value of the package variable of that name. -/
def NewTaskOutput (Stdout : Target) (format : String) : Constructed :=
  let o : TaskOutput := { decorator := none, lock := false, closeCh := { closed := false } }
  if format = OutputFormatRaw then
    let d := DecoratedOutputWriter.RawOutputWriter Stdout
    { o := some { o with decorator := some d }, err := none, created := [d] }
  else if format = OutputFormatPrefixed then
    let d := DecoratedOutputWriter.PrefixedOutputWriter Stdout
    { o := some { o with decorator := some d }, err := none, created := [d] }
  else if format = OutputFormatCockpit then
    let d := DecoratedOutputWriter.CockpitOutputWriter Stdout o.closeCh
    { o := some { o with decorator := some d }, err := none, created := [d] }
  else
    { o := none, err := some (Error.msg ("unknown decorator \"" ++ format ++ "\" requested")),
      created := [] }

/-- `func (o *TaskOutput) Close()`: `close(o.closeCh)`. -/
def TaskOutput.Close (o : TaskOutput) : Except String TaskOutput :=
  match o.closeCh.close with
  | Except.ok c => Except.ok { o with closeCh := c }
  | Except.error e => Except.error e

/-- What a method call does to the coordinator itself. `Start` and `Finish` only call
the decorator; a `Stream` call takes the mutex (`streamLock`) and releases it
(`streamUnlock`) and is in flight from the first to some time after the second. -/
inductive Call where
  | Start
  | streamLock
  | streamUnlock
  | Finish
  | Close
deriving DecidableEq, Repr

/-- Effect of one call on the coordinator; `Except.error` is a panic. -/
def TaskOutput.call (o : TaskOutput) : Call → Except String TaskOutput
  | Call.Start => Except.ok o
  | Call.streamLock => Except.ok { o with lock := true }
  | Call.streamUnlock => Except.ok { o with lock := false }
  | Call.Finish => Except.ok o
  | Call.Close => o.Close

/-- Effect of a sequence of calls, stopping at the first panic. -/
def TaskOutput.calls (o : TaskOutput) : List Call → Except String TaskOutput
  | [] => Except.ok o
  | c :: cs =>
    match o.call c with
    | Except.ok o1 => TaskOutput.calls o1 cs
    | Except.error e => Except.error e
/-! ## Readers and writers -/

/-- What one `src.Read(buf)` call on the one-byte buffer returns: `data b err` is
`n = 1` with `b` stored in the buffer, `empty err` is `n = 0` with the buffer left
as it was; `err` is the error returned alongside. -/
inductive ReadResult where
  | data (b : Byte) (err : Option Error)
  | empty (err : Option Error)
deriving DecidableEq, Repr

/-- The error returned by a `Read` call. -/
def ReadResult.err : ReadResult → Option Error
  | ReadResult.data _ e => e
  | ReadResult.empty e => e

/-- The content of the one-byte buffer after a `Read` call. -/
def ReadResult.store (r : ReadResult) (buf : Byte) : Byte :=
  match r with
  | ReadResult.data b _ => b
  | ReadResult.empty _ => buf

/-- An `io.ReadCloser`, given by the results of its successive `Read` calls. A `Read`
after the last scripted result returns `(0, io.EOF)`. -/
abbrev Source := List ReadResult

/-- The source that delivers the bytes `p`, one per `Read` with a nil error, and then
returns `(0, fin)`; `fin = io.EOF` is a stream that ends normally. -/
def delivers (p : List Byte) (fin : Error) : Source :=
  p.map (fun b => ReadResult.data b none) ++ [ReadResult.empty (some fin)]

/-- The two values a `Write` call returns. -/
structure WriteResult where
  n : Nat
  err : Option Error
deriving DecidableEq, Repr

/-- An `io.Writer` whose implementation is not part of the coordinator (a decorator,
a log sink): the bytes it has accepted so far, the chunks of the `Write` calls made
on it so far, and how it answers the next `Write`, given those calls and the chunk.
Any sequence of answers is the behaviour of some such writer. -/
structure Writer where
  received : List Byte
  calls : List (List Byte)
  respond : List (List Byte) → List Byte → WriteResult

/-- A `Write` call: the writer accepts the first `n` bytes of the chunk, where
`(n, err)` is its answer. -/
def Writer.Write (w : Writer) (p : List Byte) : Writer × WriteResult :=
  let r := w.respond w.calls p
  ({ w with received := w.received ++ p.take r.n, calls := w.calls ++ [p] }, r)

/-- A writer whose every `Write` accepts the whole chunk and returns a nil error. -/
def Writer.Succeeds (w : Writer) : Prop :=
  ∀ h p, w.respond h p = { n := p.length, err := none }

/-- The writer that starts with `init` accepted and never fails. -/
def Writer.reliable (init : List Byte) : Writer :=
  { received := init, calls := [], respond := fun _ p => { n := p.length, err := none } }

/-- The writer that starts empty, accepts its first `k` `Write` calls, and answers every
later one with `(0, e)`. -/
def Writer.failingAfter (k : Nat) (e : Error) : Writer :=
  { received := [], calls := [],
    respond := fun h p => if h.length < k then { n := p.length, err := none }
      else { n := 0, err := some e } }

/-! ## pipe -/

/-- The loop of `pipe`, with `buf` the current content of the one-byte buffer and
`write` the `Write` method of the destination. The result of `Read` is inspected for
its error only; the byte count is discarded (`_, err = src.Read(buf)`), and the whole
buffer is written. -/
def pipeLoop {D : Type} (write : D → List Byte → D × WriteResult) :
    D → Source → Byte → D × Option Error
  | dst, [], _ => (dst, none)
  | dst, r :: rest, buf =>
    match r.err with
    | some e => if e ≠ Error.EOF then (dst, some e) else (dst, none)
    | none =>
      match write dst [r.store buf] with
      | (dst1, { n := _, err := some e }) => (dst1, some e)
      | (dst1, { n := _, err := none }) => pipeLoop write dst1 rest (r.store buf)

/-- `func (o *TaskOutput) pipe(dst io.Writer, src io.ReadCloser) error`; the buffer
`make([]byte, 1)` starts as a zero byte. Returns the destination afterwards and the
error. -/
def pipe {D : Type} (write : D → List Byte → D × WriteResult) (dst : D) (src : Source) :
    D × Option Error :=
  pipeLoop write dst src 0

/-! ## The shared capture buffer -/

/-- Go `bytes.Buffer`, as far as `Write` and `Bytes` use it: the slice `b.buf`, given by
the cells of its backing array that have been part of the slice (`mem`) and by its
length (`len`). `Write` is taken statement by statement on the path it follows once
the buffer has a backing array with room (64 bytes from the first `Write` on):
`l := len(b.buf)`, `b.buf = b.buf[:l+n]`, `copy(b.buf[l:], p)`. The first `Write`, which
in Go allocates the array, is given the same three statements; run without
interference they append the chunk either way. -/
structure Buffer where
  mem : List Byte
  len : Nat
deriving DecidableEq, Repr

/-- The zero value `bytes.Buffer{}`. -/
def Buffer.empty : Buffer := { mem := [], len := 0 }

/-- Go `bytes.Buffer.Bytes`: the slice `b.buf[:len(b.buf)]`. -/
def Buffer.Bytes (b : Buffer) : List Byte :=
  b.mem.take b.len

/-- The second statement of `bytes.Buffer.Write` for a one-byte chunk, after
`l := len(b.buf)` has been read: `b.buf = b.buf[:l+1]`. A cell that enters the slice
for the first time is a zero byte. -/
def Buffer.reslice (b : Buffer) (l : Nat) : Buffer :=
  { mem := b.mem ++ List.replicate (l + 1 - b.mem.length) 0, len := l + 1 }

/-- How many bytes the last statement of `bytes.Buffer.Write`, `copy(b.buf[l:], p)`,
copies for a one-byte chunk: one if the slice reaches beyond `l`, none if it ends at
`l`; if the slice is shorter than `l` the slice expression panics (`none`). -/
def Buffer.copyCount (b : Buffer) (l : Nat) : Option Nat :=
  if b.len < l then none else if l = b.len then some 0 else some 1

/-- The effect of `copy(b.buf[l:], p)` on the backing array for the one-byte chunk `x`. -/
def Buffer.copyAt (b : Buffer) (l : Nat) (x : Byte) : Buffer :=
  if l < b.len then { b with mem := b.mem.set l x } else b

/-! ## Stream: the caller and the two reader goroutines -/

/-- The two output channels of a process. -/
inductive Chan where
  | stdout
  | stderr
deriving DecidableEq, Repr

/-- The other channel. -/
def Chan.other : Chan → Chan
  | Chan.stdout => Chan.stderr
  | Chan.stderr => Chan.stdout

/-- The threads of one `Stream` call: the caller, and one reader goroutine per channel. -/
inductive Tid where
  | caller
  | reader (c : Chan)
deriving DecidableEq, Repr

/-- Modelled from the spec: `task.Task` is declared in `internal/task`, outside the files
at hand. `Stream` uses `t.Log.Stdout` and `t.Log.Stderr` only as `io.Writer`s; the spec
calls them the stage's durable per-channel log sinks, opaque writers. -/
structure TaskLog where
  Stdout : Writer
  Stderr : Writer

/-- Modelled from the spec: the part of `task.Task` that `Stream` touches, its name and
its two log sinks. -/
structure Task where
  Name : String
  Log : TaskLog

/-- Where a reader goroutine stands: `idle` before its `go` statement has run; `read`
at `src.Read(buf)`; then inside `dst.Write(buf)`, which is
`io.MultiWriter(&buf, decorator, &t.Log.X)` and writes to its three writers in that
order: `wbuf`, `wbufReslice`, `wbufCopy` at the three statements of
`bytes.Buffer.Write` on the shared capture buffer (read the length, extend the slice,
copy the byte), `wdec` at the decorator's `Write`, `wlog` at the log sink's `Write`;
`done ret` once `pipe` has returned `ret` and the goroutine has ended. -/
inductive PC where
  | idle
  | read
  | wbuf
  | wbufReslice
  | wbufCopy
  | wdec
  | wlog
  | done (ret : Option Error)
deriving DecidableEq, Repr

/-- The local state of a reader goroutine: what is left of its source, the one-byte
buffer of `pipe`, the length `l` it read inside `bytes.Buffer.Write`, and its position. -/
structure Reader where
  src : Source
  buf : Byte
  l : Nat
  pc : PC
deriving DecidableEq, Repr

/-- Where the caller stands in the body of `Stream`, named by the statement it executes
next. -/
inductive CallerPC where
  | lock
  | go1
  | go2
  | unlock
  | wait
  | send
  | closeOut
  | returned
deriving DecidableEq, Repr

/-- One `Write` call on the stage-scoped decorator, as observed from outside: the
reader that made it, the byte written, and what the call returned. -/
structure DecCall where
  chan : Chan
  byte : Byte
  result : WriteResult
deriving DecidableEq, Repr

/-- The state of one `Stream` call. `buf` is the shared `bytes.Buffer`, written by both
readers with no lock. `crashed` is set when a goroutine panics, which ends the
process. `decCalls` is a history variable: the calls made to the decorator, in order;
it is written and never read. `diag` collects the errors passed to `logrus.Debug`;
`out` is the value sent on the `out` channel. -/
structure State where
  caller : CallerPC
  lock : Bool
  wg : Nat
  rOut : Reader
  rErr : Reader
  buf : Buffer
  decorator : Writer
  logStdout : Writer
  logStderr : Writer
  diag : List Error
  out : Option (List Byte)
  outClosed : Bool
  crashed : Bool
  decCalls : List DecCall

/-- The reader goroutine of a channel. -/
def State.reader (st : State) : Chan → Reader
  | Chan.stdout => st.rOut
  | Chan.stderr => st.rErr

/-- Replace the reader goroutine of a channel. -/
def State.setReader (st : State) (c : Chan) (r : Reader) : State :=
  match c with
  | Chan.stdout => { st with rOut := r }
  | Chan.stderr => { st with rErr := r }

/-- The log sink of a channel: `t.Log.Stdout` or `t.Log.Stderr`. -/
def State.log (st : State) : Chan → Writer
  | Chan.stdout => st.logStdout
  | Chan.stderr => st.logStderr

/-- Replace the log sink of a channel. -/
def State.setLog (st : State) (c : Chan) (w : Writer) : State :=
  match c with
  | Chan.stdout => { st with logStdout := w }
  | Chan.stderr => { st with logStderr := w }

/-- The end of a reader goroutine: `pipe` has returned `ret`; a non-nil error is passed
to `logrus.Debug`; the deferred `wg.Done()` runs. -/
def State.exit (st : State) (c : Chan) (r : Reader) (ret : Option Error) : State :=
  let st1 := st.setReader c { r with pc := PC.done ret }
  { st1 with
    diag := (match ret with
      | some e => st1.diag ++ [e]
      | none => st1.diag)
    wg := st1.wg - 1 }

/-- What `io.MultiWriter` makes of the answer of one of its writers to the chunk `p`:
the writer's error if there is one, `io.ErrShortWrite` if the writer accepted a number
of bytes other than `len(p)`, and otherwise nothing (it goes on to the next writer). -/
def multiWriterCheck (p : List Byte) (r : WriteResult) : Option Error :=
  match r.err with
  | some e => some e
  | none => if r.n ≠ p.length then some Error.ErrShortWrite else none

/-- The capture buffer replaced. -/
def State.setBuf (st : State) (b : Buffer) : State :=
  { st with buf := b }

/-- A goroutine panics: the process ends. -/
def State.panic (st : State) : State :=
  { st with crashed := true }

/-- The second writer of the `io.MultiWriter`: the byte is passed to the `Write` of the
stage-scoped decorator. -/
def State.writeDec (st : State) (c : Chan) (b : Byte) : State :=
  { st with
    decorator := (st.decorator.Write [b]).1
    decCalls := st.decCalls ++ [{ chan := c, byte := b, result := (st.decorator.Write [b]).2 }] }

/-- One step of the reader goroutine of channel `c`: one `Read` call, one statement of
`bytes.Buffer.Write` on the shared capture buffer, or one `Write` call on the
decorator or the log sink. Nothing in `pipe` or in the goroutine takes a lock. -/
def stepReader (c : Chan) (st : State) : State :=
  match (st.reader c).pc with
  | PC.idle => st
  | PC.done _ => st
  | PC.read =>
    match (st.reader c).src with
    | [] => st.exit c (st.reader c) none
    | res :: rest =>
      match res.err with
      | some e =>
        if e ≠ Error.EOF then
          st.exit c { st.reader c with src := rest, buf := res.store (st.reader c).buf } (some e)
        else
          st.exit c { st.reader c with src := rest, buf := res.store (st.reader c).buf } none
      | none =>
        st.setReader c
          { src := rest, buf := res.store (st.reader c).buf, l := (st.reader c).l, pc := PC.wbuf }
  | PC.wbuf =>
    st.setReader c { st.reader c with l := st.buf.len, pc := PC.wbufReslice }
  | PC.wbufReslice =>
    (st.setBuf (st.buf.reslice (st.reader c).l)).setReader c
      { st.reader c with pc := PC.wbufCopy }
  | PC.wbufCopy =>
    match st.buf.copyCount (st.reader c).l with
    | none => st.panic
    | some n =>
      match multiWriterCheck [(st.reader c).buf] { n := n, err := none } with
      | some e =>
        (st.setBuf (st.buf.copyAt (st.reader c).l (st.reader c).buf)).exit c (st.reader c)
          (some e)
      | none =>
        (st.setBuf (st.buf.copyAt (st.reader c).l (st.reader c).buf)).setReader c
          { st.reader c with pc := PC.wdec }
  | PC.wdec =>
    match multiWriterCheck [(st.reader c).buf] (st.decorator.Write [(st.reader c).buf]).2 with
    | some e => (st.writeDec c (st.reader c).buf).exit c (st.reader c) (some e)
    | none => (st.writeDec c (st.reader c).buf).setReader c { st.reader c with pc := PC.wlog }
  | PC.wlog =>
    match multiWriterCheck [(st.reader c).buf] ((st.log c).Write [(st.reader c).buf]).2 with
    | some e =>
      (st.setLog c ((st.log c).Write [(st.reader c).buf]).1).exit c (st.reader c) (some e)
    | none =>
      (st.setLog c ((st.log c).Write [(st.reader c).buf]).1).setReader c
        { st.reader c with pc := PC.read }

/-- One step of the caller: the next statement of the body of `Stream`.
`o.lock.Lock()` waits while the mutex is held; `wg.Wait()` waits while the counter is
not zero; a `go` statement makes its goroutine runnable; `out <- buf.Bytes()` sends the
content of the capture buffer. -/
def stepCaller (st : State) : State :=
  match st.caller with
  | CallerPC.lock =>
    if st.lock then st else { st with lock := true, wg := st.wg + 2, caller := CallerPC.go1 }
  | CallerPC.go1 =>
    { st.setReader Chan.stdout { st.rOut with pc := PC.read } with caller := CallerPC.go2 }
  | CallerPC.go2 =>
    { st.setReader Chan.stderr { st.rErr with pc := PC.read } with caller := CallerPC.unlock }
  | CallerPC.unlock => { st with lock := false, caller := CallerPC.wait }
  | CallerPC.wait => if st.wg = 0 then { st with caller := CallerPC.send } else st
  | CallerPC.send => { st with out := some st.buf.Bytes, caller := CallerPC.closeOut }
  | CallerPC.closeOut => { st with outClosed := true, caller := CallerPC.returned }
  | CallerPC.returned => st

/-- One step of the thread the scheduler picked; a thread that cannot move stays put,
and nothing moves once the process has crashed. -/
def step (st : State) (t : Tid) : State :=
  if st.crashed then st
  else
    match t with
    | Tid.caller => stepCaller st
    | Tid.reader c => stepReader c st

/-- Run a schedule: the threads take their steps in the order listed. -/
def exec (st : State) (sched : List Tid) : State :=
  sched.foldl step st

/-- The state in which `Stream` is entered: the mutex free, the `WaitGroup` at zero, no
goroutine started, the capture buffer empty. `decorator` is the writer that
`o.decorator.ForTask(t)` returns. -/
def State.init (decorator : Writer) (t : Task) (cmdStdout cmdStderr : Source) : State :=
  { caller := CallerPC.lock, lock := false, wg := 0,
    rOut := { src := cmdStdout, buf := 0, l := 0, pc := PC.idle },
    rErr := { src := cmdStderr, buf := 0, l := 0, pc := PC.idle },
    buf := Buffer.empty, decorator := decorator,
    logStdout := t.Log.Stdout, logStderr := t.Log.Stderr,
    diag := [], out := none, outClosed := false, crashed := false, decCalls := [] }

/-- A schedule that lets every thread run to its end whatever the state: the caller up
to `wg.Wait()`, each reader through its whole source, the caller to its return. -/
def completion (cmdStdout cmdStderr : Source) : List Tid :=
  List.replicate 4 Tid.caller
    ++ List.replicate (6 * (cmdStdout.length + 1)) (Tid.reader Chan.stdout)
    ++ List.replicate (6 * (cmdStderr.length + 1)) (Tid.reader Chan.stderr)
    ++ List.replicate 3 Tid.caller

/-- `func (o *TaskOutput) Stream(t *task.Task, cmdStdout, cmdStderr io.ReadCloser, out chan []byte)`
under the interleaving `sched` of its three threads, each of which is then left to run
to its end. The result is the final state: `out` and `outClosed` are what the receiver
of the channel observes, and `caller` tells whether the call has returned. -/
def Stream (decorator : Writer) (t : Task) (cmdStdout cmdStderr : Source) (sched : List Tid) :
    State :=
  exec (State.init decorator t cmdStdout cmdStderr) (sched ++ completion cmdStdout cmdStderr)

/-! ## Reference values used to state the properties -/

/-- The exact difference `t - u` in nanoseconds, without regard to the range of
`time.Duration`: of the monotonic readings when both values carry one, of the wall
clock instants otherwise. -/
def Time.exactSub (t u : Time) : Int :=
  match t.mono, u.mono with
  | some a, some b => a - b
  | _, _ => (t.sec - u.sec) * 1000000000 + (t.nsec - u.nsec)

/-- How many of the calls are `Close`. -/
def closeCount (cs : List Call) : Nat :=
  cs.count Call.Close

/-- The bytes "partial". -/
def brokenBytes : List Byte := [112, 97, 114, 116, 105, 97, 108]

/-- The bytes "abc". -/
def abcBytes : List Byte := [97, 98, 99]

/-- A task named "build" whose two log sinks are empty and never fail. -/
def sampleTask : Task :=
  { Name := "build", Log := { Stdout := Writer.reliable [], Stderr := Writer.reliable [] } }

/-- A schedule in which the two readers alternate once both are running. -/
def alternating : List Tid :=
  [Tid.caller, Tid.caller, Tid.reader Chan.stdout, Tid.caller,
   Tid.reader Chan.stderr, Tid.reader Chan.stdout, Tid.reader Chan.stderr, Tid.reader Chan.stdout,
   Tid.reader Chan.stderr, Tid.reader Chan.stdout, Tid.reader Chan.stderr, Tid.caller,
   Tid.reader Chan.stderr, Tid.reader Chan.stderr, Tid.reader Chan.stdout]

/-- The bytes that a channel's source delivers in a run on `p` (stdout) and `q` (stderr). -/
def Chan.bytes (c : Chan) (p q : List Byte) : List Byte :=
  match c with
  | Chan.stdout => p
  | Chan.stderr => q

/-- What a channel's log sink of task `t` holds when `Stream` is entered. -/
def Chan.logged (c : Chan) (t : Task) : List Byte :=
  match c with
  | Chan.stdout => t.Log.Stdout.received
  | Chan.stderr => t.Log.Stderr.received

/-- The six steps in which the stdout reader reads one byte and hands it to its three
writers, uninterrupted. -/
def stdoutByte : List Tid :=
  List.replicate 6 (Tid.reader Chan.stdout)

/-- The caller runs up to `wg.Wait()` and the stdout reader delivers its first byte in
full, after which the capture buffer has its backing array. -/
def firstByteWritten : List Tid :=
  List.replicate 4 Tid.caller ++ stdoutByte

/-- The three statements of `bytes.Buffer.Write`, run by one reader without
interruption. -/
def writeAlone (c : Chan) : List Tid :=
  [Tid.reader c, Tid.reader c, Tid.reader c]

/-- The two readers run `bytes.Buffer.Write` at the same time, statement by statement
in turn: both read the length, both extend the slice, both copy. -/
def writesOverlap : List Tid :=
  [Tid.reader Chan.stdout, Tid.reader Chan.stderr, Tid.reader Chan.stdout,
   Tid.reader Chan.stderr, Tid.reader Chan.stdout, Tid.reader Chan.stderr]

/-- A schedule on which, once the first byte is written, each reader reads its next byte
and the two then write to the capture buffer at the same time. -/
def overlapping : List Tid :=
  firstByteWritten ++ [Tid.reader Chan.stdout, Tid.reader Chan.stderr] ++ writesOverlap

/-- A schedule on which, once the first byte is written, the stderr reader reads the
length of the capture buffer inside `bytes.Buffer.Write` and is then held up; the
stdout reader writes one more byte in full and gets as far as extending the slice for
the byte after that; the stderr reader then extends the slice from the length it read
earlier, which cuts the slice back; the stdout reader copies next. -/
def staleLength : List Tid :=
  firstByteWritten ++ [Tid.reader Chan.stderr, Tid.reader Chan.stderr] ++ stdoutByte
    ++ [Tid.reader Chan.stdout, Tid.reader Chan.stdout, Tid.reader Chan.stdout,
        Tid.reader Chan.stderr, Tid.reader Chan.stdout]

/-- The same schedule with one more byte written in full by the stdout reader before the
stderr reader cuts the slice back. -/
def staleLengthLate : List Tid :=
  firstByteWritten ++ [Tid.reader Chan.stderr, Tid.reader Chan.stderr] ++ stdoutByte
    ++ stdoutByte
    ++ [Tid.reader Chan.stdout, Tid.reader Chan.stdout, Tid.reader Chan.stdout,
        Tid.reader Chan.stderr, Tid.reader Chan.stdout]

/-- The state of a `Stream` call on a stdout source that delivers "a" and a stderr
source that delivers "b", once the caller has run up to `wg.Wait()` and each reader
has made its first `Read`. -/
def bothAtBufferWrite : State :=
  exec (State.init (Writer.reliable []) sampleTask (delivers [97] Error.EOF)
      (delivers [98] Error.EOF))
    [Tid.caller, Tid.caller, Tid.caller, Tid.caller, Tid.reader Chan.stdout,
     Tid.reader Chan.stderr]

/-- The state of a `Stream` call on a stdout source that delivers "ab" and a stderr
source that delivers "c", once "a" has been written in full and each reader has read
its next byte. -/
def bothAtLaterWrite : State :=
  exec (State.init (Writer.reliable []) sampleTask (delivers [97, 98] Error.EOF)
      (delivers [99] Error.EOF))
    (firstByteWritten ++ [Tid.reader Chan.stdout, Tid.reader Chan.stderr])

/-- The state of the call on "a" and "b" once the caller has taken the mutex and started
the stdout reader, and that reader has made its first `Read`. -/
def readerUnderLock : State :=
  exec (State.init (Writer.reliable []) sampleTask (delivers [97] Error.EOF)
      (delivers [98] Error.EOF))
    [Tid.caller, Tid.caller, Tid.reader Chan.stdout]

/-- The bytes "abcd". -/
def abcdBytes : List Byte := [97, 98, 99, 100]

/-! ## Invariants of a `Stream` run in which one channel stays silent -/

/-- The calls by which the reader of channel `c` hands the bytes `a` to a decorator that
accepts each of them. -/
def okCalls (c : Chan) (a : List Byte) : List DecCall :=
  a.map (fun b => { chan := c, byte := b, result := { n := 1, err := none } })

/-- The bytes a writer accepted over a sequence of one-byte calls. -/
def accepted : List DecCall → List Byte
  | [] => []
  | d :: ds => [d.byte].take d.result.n ++ accepted ds

/-- What `pipe` returns when its source ends with the error `fin`. -/
def endRet (fin : Error) : Option Error :=
  if fin ≠ Error.EOF then some fin else none

/-- The reader of channel `c`, fed by `delivers p fin`, with `l0` in its log sink at the
start, in a run in which it is the only reader that writes: at each position of the
goroutine, how far each destination has got. In the last case the reader has either
come to the end of its source, or was stopped by the decorator at a byte `x` that the
capture buffer already holds. -/
def ActiveInv (p : List Byte) (fin : Error) (l0 : List Byte) (c : Chan) (st : State) : Prop :=
  st.buf.len = st.buf.mem.length ∧
  match (st.reader c).pc with
  | PC.idle =>
    (st.reader c).src = delivers p fin ∧ st.buf.mem = [] ∧ st.decCalls = okCalls c [] ∧
      (st.log c).received = l0
  | PC.read =>
    ∃ a b, p = a ++ b ∧ (st.reader c).src = delivers b fin ∧ st.buf.mem = a ∧
      st.decCalls = okCalls c a ∧ (st.log c).received = l0 ++ a
  | PC.wbuf =>
    ∃ a x b, p = a ++ x :: b ∧ (st.reader c).buf = x ∧ (st.reader c).src = delivers b fin ∧
      st.buf.mem = a ∧ st.decCalls = okCalls c a ∧ (st.log c).received = l0 ++ a
  | PC.wbufReslice =>
    ∃ a x b, p = a ++ x :: b ∧ (st.reader c).buf = x ∧ (st.reader c).src = delivers b fin ∧
      st.buf.mem = a ∧ st.decCalls = okCalls c a ∧ (st.log c).received = l0 ++ a ∧
      (st.reader c).l = a.length
  | PC.wbufCopy =>
    ∃ a x b, p = a ++ x :: b ∧ (st.reader c).buf = x ∧ (st.reader c).src = delivers b fin ∧
      st.buf.mem = a ++ [0] ∧ st.decCalls = okCalls c a ∧ (st.log c).received = l0 ++ a ∧
      (st.reader c).l = a.length
  | PC.wdec =>
    ∃ a x b, p = a ++ x :: b ∧ (st.reader c).buf = x ∧ (st.reader c).src = delivers b fin ∧
      st.buf.mem = a ++ [x] ∧ st.decCalls = okCalls c a ∧ (st.log c).received = l0 ++ a
  | PC.wlog =>
    ∃ a x b, p = a ++ x :: b ∧ (st.reader c).buf = x ∧ (st.reader c).src = delivers b fin ∧
      st.buf.mem = a ++ [x] ∧ st.decCalls = okCalls c (a ++ [x]) ∧
      (st.log c).received = l0 ++ a
  | PC.done ret =>
    (ret = endRet fin ∧ st.buf.mem = p ∧ st.decCalls = okCalls c p ∧
        (st.log c).received = l0 ++ p) ∨
    (∃ a x b res e, p = a ++ x :: b ∧ st.buf.mem = a ++ [x] ∧
        st.decCalls = okCalls c a ++ [{ chan := c, byte := x, result := res }] ∧
        multiWriterCheck [x] res = some e ∧ ret = some e ∧ (st.log c).received = l0 ++ a)

/-- The reader of channel `d`, whose source delivers no byte and ends with `fin`: it
never gets inside `dst.Write`. -/
def SilentInv (fin : Error) (d : Chan) (st : State) : Prop :=
  match (st.reader d).pc with
  | PC.idle => (st.reader d).src = delivers [] fin
  | PC.read => (st.reader d).src = delivers [] fin
  | PC.done ret => ret = endRet fin
  | _ => False

/-- Whether a reader goroutine still counts in the `WaitGroup`. -/
def Reader.pending (r : Reader) : Nat :=
  match r.pc with
  | PC.done _ => 0
  | _ => 1

/-- Whether a reader goroutine has ended with an error. -/
def Reader.failed (r : Reader) : Nat :=
  match r.pc with
  | PC.done (some _) => 1
  | _ => 0

/-- How the caller's position constrains the rest of the state. -/
def CallerInv (st : State) : Prop :=
  match st.caller with
  | CallerPC.lock => st.lock = false ∧ st.wg = 0 ∧ st.rOut.pc = PC.idle ∧ st.rErr.pc = PC.idle
  | CallerPC.go1 =>
    st.wg = st.rOut.pending + st.rErr.pending ∧ st.rOut.pc = PC.idle ∧ st.rErr.pc = PC.idle
  | CallerPC.go2 =>
    st.wg = st.rOut.pending + st.rErr.pending ∧ st.rOut.pc ≠ PC.idle ∧ st.rErr.pc = PC.idle
  | CallerPC.unlock =>
    st.wg = st.rOut.pending + st.rErr.pending ∧ st.rOut.pc ≠ PC.idle ∧ st.rErr.pc ≠ PC.idle
  | CallerPC.wait =>
    st.wg = st.rOut.pending + st.rErr.pending ∧ st.rOut.pc ≠ PC.idle ∧ st.rErr.pc ≠ PC.idle
  | CallerPC.send => st.wg = 0 ∧ st.rOut.pending = 0 ∧ st.rErr.pending = 0
  | CallerPC.closeOut =>
    st.wg = 0 ∧ st.rOut.pending = 0 ∧ st.rErr.pending = 0 ∧ st.out = some st.buf.Bytes
  | CallerPC.returned =>
    st.wg = 0 ∧ st.rOut.pending = 0 ∧ st.rErr.pending = 0 ∧ st.out = some st.buf.Bytes ∧
      st.outClosed = true

/-- The invariant of a `Stream` run in which the source of channel `c` is
`delivers p fin` and the source of the other channel is `delivers [] fin2`, with a
decorator that starts as `dec`, a log sink of `c` that never fails, and `l0` and `l2`
in the two log sinks at the start. -/
structure Inv (c : Chan) (p : List Byte) (fin fin2 : Error) (dec : Writer) (l0 l2 : List Byte)
    (st : State) : Prop where
  active : ActiveInv p fin l0 c st
  silent : SilentInv fin2 c.other st
  logSilent : (st.log c.other).received = l2
  caller : CallerInv st
  alive : st.crashed = false
  decReceived : st.decorator.received = dec.received ++ accepted st.decCalls
  decRespond : st.decorator.respond = dec.respond
  logSucceeds : (st.log c).Succeeds
  diagOut : ∀ e, st.rOut.pc = PC.done (some e) → e ∈ st.diag
  diagErr : ∀ e, st.rErr.pc = PC.done (some e) → e ∈ st.diag
  diagCount : st.diag.length = st.rOut.failed + st.rErr.failed
  decResults : ∀ d ∈ st.decCalls, ∃ hist, d.result = dec.respond hist [d.byte]

/-- An upper bound on the steps a reader goroutine can still take. -/
def Reader.fuel (r : Reader) : Nat :=
  match r.pc with
  | PC.idle => 6 * r.src.length + 2
  | PC.read => 6 * r.src.length + 1
  | PC.wbuf => 6 * r.src.length + 6
  | PC.wbufReslice => 6 * r.src.length + 5
  | PC.wbufCopy => 6 * r.src.length + 4
  | PC.wdec => 6 * r.src.length + 3
  | PC.wlog => 6 * r.src.length + 2
  | PC.done _ => 0

/-- How far the caller has got in the body of `Stream`. -/
def CallerPC.rank : CallerPC → Nat
  | CallerPC.lock => 0
  | CallerPC.go1 => 1
  | CallerPC.go2 => 2
  | CallerPC.unlock => 3
  | CallerPC.wait => 4
  | CallerPC.send => 5
  | CallerPC.closeOut => 6
  | CallerPC.returned => 7

/-! ## Stage -/

/-- C4: for every stage and every 32-bit value `s`, `ReadStatus` after `UpdateStatus(s)`
returns `s`; after any sequence of `UpdateStatus` calls it returns the last value
stored (the status before the calls if there were none); the zero-valued stage reads
`StatusWaiting`, which is 0. -/
theorem Stage.ReadStatus_UpdateStatus :
    (∀ (st : Stage) (s : GoInt32), (st.UpdateStatus s).ReadStatus = s) ∧
    (∀ (st : Stage) (ss : List GoInt32) (s : GoInt32),
      ((ss ++ [s]).foldl Stage.UpdateStatus st).ReadStatus = s) ∧
    (∀ (st : Stage) (ss : List GoInt32),
      (ss.foldl Stage.UpdateStatus st).ReadStatus = ss.getLast?.getD st.ReadStatus) ∧
    Stage.zero.ReadStatus.val = StatusWaiting ∧ StatusWaiting = 0 := by
  refine ⟨fun _ _ => rfl, fun st ss s => ?_, fun st ss => ?_, rfl, rfl⟩
  · simp [List.foldl_append, Stage.UpdateStatus, Stage.ReadStatus]
  · induction ss using List.reverseRecOn with
    | nil => rfl
    | append_singleton xs x _ =>
      simp [List.foldl_append, Stage.UpdateStatus, Stage.ReadStatus]

/-- C5, as stated, fails: a stage started in 2026 whose `End` was never set (the zero
`time.Time`) has an exact difference of about -6.39e19 ns, but `Duration` returns the
smallest `time.Duration`. -/
theorem Stage.Duration_clamps_unset_End :
    ({ Stage.zero with Start := { sec := 63903600000, nsec := 0, mono := none } }).Duration
        = minDuration ∧
    Time.zero.exactSub { sec := 63903600000, nsec := 0, mono := none } = -63903600000000000000 ∧
    ({ Stage.zero with Start := { sec := 63903600000, nsec := 0, mono := none } }).Duration
        ≠ Time.zero.exactSub { sec := 63903600000, nsec := 0, mono := none } := by
  refine ⟨by decide, by decide, by decide⟩

/-- C5, amended: `Duration` returns exactly `End` minus `Start` in nanoseconds (zero when
they are equal, negative when `End` precedes `Start`) whenever that difference fits a
64-bit `time.Duration`; a larger difference yields the largest `Duration` and a smaller
one the smallest. -/
theorem Stage.Duration_exact_in_range (s : Stage) :
    (minDuration ≤ s.End.exactSub s.Start → s.End.exactSub s.Start ≤ maxDuration →
      s.Duration = s.End.exactSub s.Start) ∧
    (maxDuration < s.End.exactSub s.Start → s.Duration = maxDuration) ∧
    (s.End.exactSub s.Start < minDuration → s.Duration = minDuration) ∧
    (s.End = s.Start → s.Duration = 0) := by
  have key : s.Duration = saturate (s.End.exactSub s.Start) := by
    unfold Stage.Duration Time.Sub Time.exactSub
    split <;> rfl
  have hmm : minDuration ≤ maxDuration := by decide
  refine ⟨fun h1 h2 => ?_, fun h => ?_, fun h => ?_, fun h => ?_⟩
  · rw [key]; unfold saturate
    rw [if_neg (not_lt.mpr h1), if_neg (not_lt.mpr h2)]
  · rw [key]; unfold saturate
    rw [if_neg (not_lt.mpr (le_trans hmm (le_of_lt h))), if_pos h]
  · rw [key]; unfold saturate
    rw [if_pos h]
  · rw [key, h]
    have h0 : s.Start.exactSub s.Start = 0 := by
      unfold Time.exactSub
      cases s.Start.mono <;> simp
    rw [h0]; decide

/-- Witness for C5 amended: a stage whose `End` lies 5 ns before its `Start` has
`Duration` -5. -/
theorem Stage.Duration_exact_in_range_witness :
    ({ Stage.zero with Start := { sec := 10, nsec := 7, mono := none },
                       End := { sec := 10, nsec := 2, mono := none } }).Duration = -5 :=
  (Stage.Duration_exact_in_range
    { Stage.zero with Start := { sec := 10, nsec := 7, mono := none },
                      End := { sec := 10, nsec := 2, mono := none } }).1
    (by decide) (by decide)

/-! ## NewTaskOutput and Close -/

/-- C3: `NewTaskOutput` returns a coordinator holding the raw, prefixed or cockpit
decorator and a nil error for the strings "raw", "prefixed", "cockpit"; for every other
string it returns a nil coordinator, builds no decorator, and returns the error
`unknown decorator "<format>" requested`; so it succeeds exactly on those three. -/
theorem NewTaskOutput_formats (Stdout : Target) :
    NewTaskOutput Stdout "raw" =
      { o := some { decorator := some (DecoratedOutputWriter.RawOutputWriter Stdout),
                    lock := false, closeCh := { closed := false } },
        err := none, created := [DecoratedOutputWriter.RawOutputWriter Stdout] } ∧
    NewTaskOutput Stdout "prefixed" =
      { o := some { decorator := some (DecoratedOutputWriter.PrefixedOutputWriter Stdout),
                    lock := false, closeCh := { closed := false } },
        err := none, created := [DecoratedOutputWriter.PrefixedOutputWriter Stdout] } ∧
    NewTaskOutput Stdout "cockpit" =
      { o := some { decorator :=
                      some (DecoratedOutputWriter.CockpitOutputWriter Stdout { closed := false }),
                    lock := false, closeCh := { closed := false } },
        err := none,
        created := [DecoratedOutputWriter.CockpitOutputWriter Stdout { closed := false }] } ∧
    (∀ format : String, format ∉ ["raw", "prefixed", "cockpit"] →
      NewTaskOutput Stdout format =
        { o := none,
          err := some (Error.msg ("unknown decorator \"" ++ format ++ "\" requested")),
          created := [] }) ∧
    (∀ format : String,
      ((NewTaskOutput Stdout format).err = none ∧ (NewTaskOutput Stdout format).o ≠ none)
        ↔ format ∈ ["raw", "prefixed", "cockpit"]) := by
  refine ⟨by simp [NewTaskOutput, OutputFormatRaw], ?_, ?_, ?_, ?_⟩
  · simp [NewTaskOutput, OutputFormatRaw, OutputFormatPrefixed]
  · simp [NewTaskOutput, OutputFormatRaw, OutputFormatPrefixed, OutputFormatCockpit]
  · intro format h
    simp only [List.mem_cons, List.mem_singleton, List.not_mem_nil, or_false, not_or] at h
    simp [NewTaskOutput, OutputFormatRaw, OutputFormatPrefixed, OutputFormatCockpit, h.1, h.2.1,
      h.2.2]
  · intro format
    simp only [List.mem_cons, List.mem_singleton, List.not_mem_nil, or_false]
    unfold NewTaskOutput OutputFormatRaw OutputFormatPrefixed OutputFormatCockpit
    by_cases h1 : format = "raw"
    · simp [h1]
    · by_cases h2 : format = "prefixed"
      · simp [h2]
      · by_cases h3 : format = "cockpit"
        · simp [h3]
        · simp [h1, h2, h3]

/-- Witness for C3: the strings "bogus", "" and "RAW" are rejected with the stated
message and no decorator is built. -/
theorem NewTaskOutput_formats_witness :
    NewTaskOutput Target.osStdout "bogus" =
      { o := none, err := some (Error.msg "unknown decorator \"bogus\" requested"),
        created := [] } ∧
    NewTaskOutput Target.osStdout "" =
      { o := none, err := some (Error.msg "unknown decorator \"\" requested"), created := [] } ∧
    NewTaskOutput Target.osStdout "RAW" =
      { o := none, err := some (Error.msg "unknown decorator \"RAW\" requested"),
        created := [] } :=
  ⟨(NewTaskOutput_formats Target.osStdout).2.2.2.1 "bogus" (by decide),
   (NewTaskOutput_formats Target.osStdout).2.2.2.1 "" (by decide),
   (NewTaskOutput_formats Target.osStdout).2.2.2.1 "RAW" (by decide)⟩

/-- Calls other than `Close` leave the shutdown channel as it is. -/
lemma TaskOutput.call_closeCh (o : TaskOutput) (c : Call) (h : c ≠ Call.Close) :
    ∃ o1, o.call c = Except.ok o1 ∧ o1.closeCh = o.closeCh := by
  cases c <;> first | exact absurd rfl h | exact ⟨_, rfl, rfl⟩

/-- Once the shutdown channel is closed, a sequence of calls panics exactly when it
contains a `Close`, and otherwise leaves the channel closed. -/
lemma TaskOutput.calls_closed (cs : List Call) :
    ∀ o : TaskOutput, o.closeCh.closed = true →
      (closeCount cs = 0 → ∃ o1, o.calls cs = Except.ok o1 ∧ o1.closeCh.closed = true) ∧
      (1 ≤ closeCount cs → o.calls cs = Except.error "close of closed channel") := by
  induction cs with
  | nil => intro o h; exact ⟨fun _ => ⟨o, rfl, h⟩, fun h1 => absurd h1 (by simp [closeCount])⟩
  | cons c cs ih =>
    intro o h
    by_cases hc : c = Call.Close
    · subst hc
      refine ⟨fun h0 => absurd h0 (by simp [closeCount]), fun _ => ?_⟩
      simp [TaskOutput.calls, TaskOutput.call, TaskOutput.Close, Channel.close, h]
    · obtain ⟨o1, ho1, hcl⟩ := o.call_closeCh c hc
      have hcount : closeCount (c :: cs) = closeCount cs := by
        simp [closeCount, List.count_cons, hc]
      have hcalls : o.calls (c :: cs) = o1.calls cs := by
        simp [TaskOutput.calls, ho1]
      rw [hcount, hcalls]
      exact ih o1 (by rw [hcl]; exact h)

/-- From an open shutdown channel: no `Close` leaves it open, one `Close` closes it
without a panic, two or more panic. -/
lemma TaskOutput.calls_open (cs : List Call) :
    ∀ o : TaskOutput, o.closeCh.closed = false →
      (closeCount cs = 0 → ∃ o1, o.calls cs = Except.ok o1 ∧ o1.closeCh.closed = false) ∧
      (closeCount cs = 1 → ∃ o1, o.calls cs = Except.ok o1 ∧ o1.closeCh.closed = true) ∧
      (2 ≤ closeCount cs → o.calls cs = Except.error "close of closed channel") := by
  induction cs with
  | nil =>
    intro o h
    exact ⟨fun _ => ⟨o, rfl, h⟩, fun h1 => absurd h1 (by simp [closeCount]),
      fun h1 => absurd h1 (by simp [closeCount])⟩
  | cons c cs ih =>
    intro o h
    by_cases hc : c = Call.Close
    · subst hc
      have hcount : closeCount (Call.Close :: cs) = closeCount cs + 1 := by
        simp [closeCount]
      have hcalls : o.calls (Call.Close :: cs)
          = TaskOutput.calls { o with closeCh := { closed := true } } cs := by
        simp [TaskOutput.calls, TaskOutput.call, TaskOutput.Close, Channel.close, h]
      have hclosed := TaskOutput.calls_closed cs { o with closeCh := { closed := true } } rfl
      rw [hcount, hcalls]
      refine ⟨fun h0 => absurd h0 (by omega), fun h1 => hclosed.1 (by omega),
        fun h2 => hclosed.2 (by omega)⟩
    · obtain ⟨o1, ho1, hcl⟩ := o.call_closeCh c hc
      have hcount : closeCount (c :: cs) = closeCount cs := by
        simp [closeCount, List.count_cons, hc]
      have hcalls : o.calls (c :: cs) = o1.calls cs := by
        simp [TaskOutput.calls, ho1]
      rw [hcount, hcalls]
      exact ih o1 (by rw [hcl]; exact h)

/-- C8, as stated, fails: on the coordinator built by `NewTaskOutput("raw")` the second
of two `Close` calls panics (close of closed channel). -/
theorem TaskOutput.Close_twice_panics :
    ∃ o, (NewTaskOutput Target.osStdout "raw").o = some o ∧
      o.calls [Call.Close] = Except.ok { o with closeCh := { closed := true } } ∧
      o.calls [Call.Close, Call.Close] = Except.error "close of closed channel" :=
  ⟨_, rfl, rfl, rfl⟩

/-- C8, amended: on a coordinator built by `NewTaskOutput`, a sequence of calls in which
`Close` occurs at most once (at any place, also between the lock and unlock of a
`Stream` call in flight) never panics, and the shutdown channel ends closed exactly
when `Close` occurred; a sequence with two or more `Close` calls panics at the second.
Single fire is the caller's obligation, not the coordinator's. -/
theorem TaskOutput.Close_single_fire (Stdout : Target) (format : String) (o : TaskOutput)
    (cs : List Call) (hnew : (NewTaskOutput Stdout format).o = some o) :
    (closeCount cs = 0 → ∃ o1, o.calls cs = Except.ok o1 ∧ o1.closeCh.closed = false) ∧
    (closeCount cs = 1 → ∃ o1, o.calls cs = Except.ok o1 ∧ o1.closeCh.closed = true) ∧
    (2 ≤ closeCount cs → o.calls cs = Except.error "close of closed channel") := by
  have hopen : o.closeCh.closed = false := by
    unfold NewTaskOutput at hnew
    simp only at hnew
    split_ifs at hnew <;> simp at hnew <;> subst hnew <;> rfl
  exact TaskOutput.calls_open cs o hopen

/-- Witness for C8 amended: one `Close` issued while a `Stream` call holds the mutex, on
the coordinator built for "cockpit". -/
theorem TaskOutput.Close_single_fire_witness :
    ∃ o1, TaskOutput.calls
        { decorator := some (DecoratedOutputWriter.CockpitOutputWriter Target.osStdout
            { closed := false }), lock := false, closeCh := { closed := false } }
        [Call.Start, Call.streamLock, Call.Close, Call.streamUnlock, Call.Finish]
          = Except.ok o1 ∧ o1.closeCh.closed = true :=
  (TaskOutput.Close_single_fire Target.osStdout "cockpit" _
    [Call.Start, Call.streamLock, Call.Close, Call.streamUnlock, Call.Finish]
    (by decide)).2.1 (by decide)

/-! ## pipe on sources that use the whole reader contract -/

/-- C10 fails on the code: `pipe` discards the byte count of `Read`. A source whose
only `Read` returns its last byte together with `io.EOF` has that byte dropped; a
source that returns `(0, nil)` after a byte has that byte written twice; a source that
returns `(0, nil)` first has a zero byte written that it never delivered. In all
three `pipe` returns nil. The first holds for every byte and every destination. -/
theorem pipe_ignores_read_count :
    (pipe Writer.Write (Writer.reliable []) [ReadResult.data 97 (some Error.EOF)]).1.received
      = [] ∧
    (pipe Writer.Write (Writer.reliable []) [ReadResult.data 97 (some Error.EOF)]).2 = none ∧
    (pipe Writer.Write (Writer.reliable [])
        [ReadResult.data 97 none, ReadResult.empty none,
          ReadResult.empty (some Error.EOF)]).1.received = [97, 97] ∧
    (pipe Writer.Write (Writer.reliable [])
        [ReadResult.empty none, ReadResult.data 97 none,
          ReadResult.empty (some Error.EOF)]).1.received = [0, 97] ∧
    (pipe Writer.Write (Writer.reliable [])
        [ReadResult.empty none, ReadResult.data 97 none,
          ReadResult.empty (some Error.EOF)]).2 = none ∧
    (∀ (w : Writer) (b : Byte),
      pipe Writer.Write w [ReadResult.data b (some Error.EOF)] = (w, none)) := by
  refine ⟨by decide, by decide, by decide, by decide, by decide, fun _ _ => rfl⟩
/-! ## Stream: how a step changes each thread's view of the state -/

@[simp] lemma State.reader_setReader (st : State) (c d : Chan) (r : Reader) :
    (st.setReader d r).reader c = if c = d then r else st.reader c := by
  cases c <;> cases d <;> rfl

@[simp] lemma State.reader_setLog (st : State) (c d : Chan) (w : Writer) :
    (st.setLog d w).reader c = st.reader c := by
  cases c <;> cases d <;> rfl

@[simp] lemma State.reader_exit (st : State) (c d : Chan) (r : Reader) (ret : Option Error) :
    (st.exit d r ret).reader c =
      if c = d then { r with pc := PC.done ret } else st.reader c := by
  cases c <;> cases d <;> rfl

@[simp] lemma State.reader_setBuf (st : State) (c : Chan) (b : Buffer) :
    (st.setBuf b).reader c = st.reader c := by
  cases c <;> rfl

@[simp] lemma State.reader_writeDec (st : State) (c d : Chan) (b : Byte) :
    (st.writeDec d b).reader c = st.reader c := by
  cases c <;> rfl

@[simp] lemma State.reader_panic (st : State) (c : Chan) :
    st.panic.reader c = st.reader c := by
  cases c <;> rfl

@[simp] lemma State.log_setReader (st : State) (c d : Chan) (r : Reader) :
    (st.setReader d r).log c = st.log c := by
  cases c <;> cases d <;> rfl

@[simp] lemma State.log_setLog (st : State) (c d : Chan) (w : Writer) :
    (st.setLog d w).log c = if c = d then w else st.log c := by
  cases c <;> cases d <;> rfl

@[simp] lemma State.log_exit (st : State) (c d : Chan) (r : Reader) (ret : Option Error) :
    (st.exit d r ret).log c = st.log c := by
  cases c <;> cases d <;> rfl

@[simp] lemma State.log_setBuf (st : State) (c : Chan) (b : Buffer) :
    (st.setBuf b).log c = st.log c := by
  cases c <;> rfl

@[simp] lemma State.log_writeDec (st : State) (c d : Chan) (b : Byte) :
    (st.writeDec d b).log c = st.log c := by
  cases c <;> rfl

@[simp] lemma State.log_panic (st : State) (c : Chan) :
    st.panic.log c = st.log c := by
  cases c <;> rfl

@[simp] lemma State.buf_setReader (st : State) (d : Chan) (r : Reader) :
    (st.setReader d r).buf = st.buf := by
  cases d <;> rfl

@[simp] lemma State.decorator_setReader (st : State) (d : Chan) (r : Reader) :
    (st.setReader d r).decorator = st.decorator := by
  cases d <;> rfl

@[simp] lemma State.decCalls_setReader (st : State) (d : Chan) (r : Reader) :
    (st.setReader d r).decCalls = st.decCalls := by
  cases d <;> rfl

@[simp] lemma State.diag_setReader (st : State) (d : Chan) (r : Reader) :
    (st.setReader d r).diag = st.diag := by
  cases d <;> rfl

@[simp] lemma State.wg_setReader (st : State) (d : Chan) (r : Reader) :
    (st.setReader d r).wg = st.wg := by
  cases d <;> rfl

@[simp] lemma State.caller_setReader (st : State) (d : Chan) (r : Reader) :
    (st.setReader d r).caller = st.caller := by
  cases d <;> rfl

@[simp] lemma State.lock_setReader (st : State) (d : Chan) (r : Reader) :
    (st.setReader d r).lock = st.lock := by
  cases d <;> rfl

@[simp] lemma State.out_setReader (st : State) (d : Chan) (r : Reader) :
    (st.setReader d r).out = st.out := by
  cases d <;> rfl

@[simp] lemma State.outClosed_setReader (st : State) (d : Chan) (r : Reader) :
    (st.setReader d r).outClosed = st.outClosed := by
  cases d <;> rfl

@[simp] lemma State.crashed_setReader (st : State) (d : Chan) (r : Reader) :
    (st.setReader d r).crashed = st.crashed := by
  cases d <;> rfl

@[simp] lemma State.buf_setLog (st : State) (d : Chan) (w : Writer) :
    (st.setLog d w).buf = st.buf := by
  cases d <;> rfl

@[simp] lemma State.decorator_setLog (st : State) (d : Chan) (w : Writer) :
    (st.setLog d w).decorator = st.decorator := by
  cases d <;> rfl

@[simp] lemma State.decCalls_setLog (st : State) (d : Chan) (w : Writer) :
    (st.setLog d w).decCalls = st.decCalls := by
  cases d <;> rfl

@[simp] lemma State.diag_setLog (st : State) (d : Chan) (w : Writer) :
    (st.setLog d w).diag = st.diag := by
  cases d <;> rfl

@[simp] lemma State.wg_setLog (st : State) (d : Chan) (w : Writer) :
    (st.setLog d w).wg = st.wg := by
  cases d <;> rfl

@[simp] lemma State.caller_setLog (st : State) (d : Chan) (w : Writer) :
    (st.setLog d w).caller = st.caller := by
  cases d <;> rfl

@[simp] lemma State.lock_setLog (st : State) (d : Chan) (w : Writer) :
    (st.setLog d w).lock = st.lock := by
  cases d <;> rfl

@[simp] lemma State.out_setLog (st : State) (d : Chan) (w : Writer) :
    (st.setLog d w).out = st.out := by
  cases d <;> rfl

@[simp] lemma State.outClosed_setLog (st : State) (d : Chan) (w : Writer) :
    (st.setLog d w).outClosed = st.outClosed := by
  cases d <;> rfl

@[simp] lemma State.crashed_setLog (st : State) (d : Chan) (w : Writer) :
    (st.setLog d w).crashed = st.crashed := by
  cases d <;> rfl

@[simp] lemma State.buf_exit (st : State) (d : Chan) (r : Reader) (ret : Option Error) :
    (st.exit d r ret).buf = st.buf := by
  cases d <;> rfl

@[simp] lemma State.decorator_exit (st : State) (d : Chan) (r : Reader) (ret : Option Error) :
    (st.exit d r ret).decorator = st.decorator := by
  cases d <;> rfl

@[simp] lemma State.decCalls_exit (st : State) (d : Chan) (r : Reader) (ret : Option Error) :
    (st.exit d r ret).decCalls = st.decCalls := by
  cases d <;> rfl

@[simp] lemma State.caller_exit (st : State) (d : Chan) (r : Reader) (ret : Option Error) :
    (st.exit d r ret).caller = st.caller := by
  cases d <;> rfl

@[simp] lemma State.lock_exit (st : State) (d : Chan) (r : Reader) (ret : Option Error) :
    (st.exit d r ret).lock = st.lock := by
  cases d <;> rfl

@[simp] lemma State.out_exit (st : State) (d : Chan) (r : Reader) (ret : Option Error) :
    (st.exit d r ret).out = st.out := by
  cases d <;> rfl

@[simp] lemma State.outClosed_exit (st : State) (d : Chan) (r : Reader) (ret : Option Error) :
    (st.exit d r ret).outClosed = st.outClosed := by
  cases d <;> rfl

@[simp] lemma State.crashed_exit (st : State) (d : Chan) (r : Reader) (ret : Option Error) :
    (st.exit d r ret).crashed = st.crashed := by
  cases d <;> rfl

@[simp] lemma State.decorator_setBuf (st : State) (b : Buffer) :
    (st.setBuf b).decorator = st.decorator := by
  rfl

@[simp] lemma State.decCalls_setBuf (st : State) (b : Buffer) :
    (st.setBuf b).decCalls = st.decCalls := by
  rfl

@[simp] lemma State.diag_setBuf (st : State) (b : Buffer) :
    (st.setBuf b).diag = st.diag := by
  rfl

@[simp] lemma State.wg_setBuf (st : State) (b : Buffer) :
    (st.setBuf b).wg = st.wg := by
  rfl

@[simp] lemma State.caller_setBuf (st : State) (b : Buffer) :
    (st.setBuf b).caller = st.caller := by
  rfl

@[simp] lemma State.lock_setBuf (st : State) (b : Buffer) :
    (st.setBuf b).lock = st.lock := by
  rfl

@[simp] lemma State.out_setBuf (st : State) (b : Buffer) :
    (st.setBuf b).out = st.out := by
  rfl

@[simp] lemma State.outClosed_setBuf (st : State) (b : Buffer) :
    (st.setBuf b).outClosed = st.outClosed := by
  rfl

@[simp] lemma State.crashed_setBuf (st : State) (b : Buffer) :
    (st.setBuf b).crashed = st.crashed := by
  rfl

@[simp] lemma State.buf_writeDec (st : State) (d : Chan) (b : Byte) :
    (st.writeDec d b).buf = st.buf := by
  rfl

@[simp] lemma State.diag_writeDec (st : State) (d : Chan) (b : Byte) :
    (st.writeDec d b).diag = st.diag := by
  rfl

@[simp] lemma State.wg_writeDec (st : State) (d : Chan) (b : Byte) :
    (st.writeDec d b).wg = st.wg := by
  rfl

@[simp] lemma State.caller_writeDec (st : State) (d : Chan) (b : Byte) :
    (st.writeDec d b).caller = st.caller := by
  rfl

@[simp] lemma State.lock_writeDec (st : State) (d : Chan) (b : Byte) :
    (st.writeDec d b).lock = st.lock := by
  rfl

@[simp] lemma State.out_writeDec (st : State) (d : Chan) (b : Byte) :
    (st.writeDec d b).out = st.out := by
  rfl

@[simp] lemma State.outClosed_writeDec (st : State) (d : Chan) (b : Byte) :
    (st.writeDec d b).outClosed = st.outClosed := by
  rfl

@[simp] lemma State.crashed_writeDec (st : State) (d : Chan) (b : Byte) :
    (st.writeDec d b).crashed = st.crashed := by
  rfl

@[simp] lemma State.buf_panic (st : State) :
    (st.panic).buf = st.buf := by
  rfl

@[simp] lemma State.decorator_panic (st : State) :
    (st.panic).decorator = st.decorator := by
  rfl

@[simp] lemma State.decCalls_panic (st : State) :
    (st.panic).decCalls = st.decCalls := by
  rfl

@[simp] lemma State.diag_panic (st : State) :
    (st.panic).diag = st.diag := by
  rfl

@[simp] lemma State.wg_panic (st : State) :
    (st.panic).wg = st.wg := by
  rfl

@[simp] lemma State.caller_panic (st : State) :
    (st.panic).caller = st.caller := by
  rfl

@[simp] lemma State.lock_panic (st : State) :
    (st.panic).lock = st.lock := by
  rfl

@[simp] lemma State.out_panic (st : State) :
    (st.panic).out = st.out := by
  rfl

@[simp] lemma State.outClosed_panic (st : State) :
    (st.panic).outClosed = st.outClosed := by
  rfl

@[simp] lemma State.buf_setBuf (st : State) (b : Buffer) :
    (st.setBuf b).buf = b := by
  rfl

@[simp] lemma State.crashed_panic (st : State) :
    st.panic.crashed = true := by
  rfl

@[simp] lemma State.decorator_writeDec (st : State) (d : Chan) (b : Byte) :
    (st.writeDec d b).decorator = (st.decorator.Write [b]).1 := by
  rfl

@[simp] lemma State.decCalls_writeDec (st : State) (d : Chan) (b : Byte) :
    (st.writeDec d b).decCalls =
      st.decCalls ++ [{ chan := d, byte := b, result := (st.decorator.Write [b]).2 }] := by
  rfl

@[simp] lemma State.wg_exit (st : State) (d : Chan) (r : Reader) (ret : Option Error) :
    (st.exit d r ret).wg = st.wg - 1 := by
  cases d <;> rfl

@[simp] lemma State.diag_exit (st : State) (d : Chan) (r : Reader) (ret : Option Error) :
    (st.exit d r ret).diag = st.diag ++ ret.toList := by
  cases d <;> cases ret <;> simp [State.exit, State.setReader]

/-- A reader's step leaves the other reader's goroutine as it is. -/
lemma stepReader_reader_other (c d : Chan) (st : State) (h : c ≠ d) :
    (stepReader d st).reader c = st.reader c := by
  unfold stepReader
  repeat' split
  all_goals simp [h]

/-- A reader's step leaves the other reader's log sink as it is. -/
lemma stepReader_log_other (c d : Chan) (st : State) (h : c ≠ d) :
    (stepReader d st).log c = st.log c := by
  unfold stepReader
  repeat' split
  all_goals simp [h]

lemma Chan.other_ne (c : Chan) : c.other ≠ c := by
  cases c <;> simp [Chan.other]

lemma Chan.eq_other_of_ne {c d : Chan} (h : d ≠ c) : d = c.other := by
  cases c <;> cases d <;> simp [Chan.other] at h ⊢

lemma delivers_nil (fin : Error) : delivers [] fin = [ReadResult.empty (some fin)] := rfl

lemma delivers_cons (x : Byte) (b : List Byte) (fin : Error) :
    delivers (x :: b) fin = ReadResult.data x none :: delivers b fin := rfl

lemma okCalls_append (c : Chan) (a b : List Byte) :
    okCalls c (a ++ b) = okCalls c a ++ okCalls c b := by
  simp [okCalls]

lemma multiWriterCheck_eq_none {x : Byte} {r : WriteResult}
    (h : multiWriterCheck [x] r = none) :
    r = { n := 1, err := none } := by
  obtain ⟨n, err⟩ := r
  cases err with
  | some e => simp [multiWriterCheck] at h
  | none =>
    by_cases hn : n = 1
    · simp [hn]
    · simp [multiWriterCheck, hn] at h

/-! ## Stream: the silent reader -/

/-- A reader whose source delivers no byte either stays put or ends, without touching
any destination. -/
lemma SilentInv.stepForm {fin : Error} {d : Chan} {st : State} (h : SilentInv fin d st) :
    stepReader d st = st ∨
      ∃ r, (st.reader d).pc = PC.read ∧ stepReader d st = st.exit d r (endRet fin) := by
  unfold SilentInv at h
  cases hpc : (st.reader d).pc <;> rw [hpc] at h <;> simp only at h
  case idle => left; unfold stepReader; simp [hpc]
  case done ret => left; unfold stepReader; simp [hpc]
  case read =>
    right
    rw [delivers_nil] at h
    refine ⟨{ st.reader d with src := [], buf := (st.reader d).buf }, rfl, ?_⟩
    unfold stepReader
    simp only [hpc, h, ReadResult.err, ReadResult.store, endRet]
    split <;> rfl

/-- The silent reader's own step preserves its invariant. -/
lemma SilentInv.ownStep {fin : Error} {d : Chan} {st : State} (h : SilentInv fin d st) :
    SilentInv fin d (stepReader d st) := by
  rcases h.stepForm with h1 | ⟨r, -, h1⟩
  · rw [h1]; exact h
  · rw [h1]; unfold SilentInv; simp

/-- The silent reader's invariant only looks at its own goroutine. -/
lemma SilentInv.transfer {fin : Error} {d : Chan} {st st1 : State} (h : SilentInv fin d st)
    (hr : st1.reader d = st.reader d) : SilentInv fin d st1 := by
  unfold SilentInv at h ⊢
  rw [hr]; exact h

/-! ## Stream: the reader that writes -/

lemma set_last (a : List Byte) (y x : Byte) : (a ++ [y]).set a.length x = a ++ [x] := by
  induction a with
  | nil => rfl
  | cons z zs ih => simp [ih]

/-- The invariant of the writing reader only looks at its own goroutine, the capture
buffer, the decorator calls and its log sink. -/
lemma ActiveInv.congr {p : List Byte} {fin : Error} {l0 : List Byte} {c : Chan} {st st1 : State}
    (h : ActiveInv p fin l0 c st) (hr : st1.reader c = st.reader c)
    (hb : st1.buf = st.buf) (hd : st1.decCalls = st.decCalls)
    (hl : st1.log c = st.log c) : ActiveInv p fin l0 c st1 := by
  unfold ActiveInv at h ⊢
  rw [hr, hb, hd, hl]
  exact h

/-- The silent reader's steps preserve the invariant of the writing reader. -/
lemma ActiveInv.stepReader_other {p : List Byte} {fin fin2 : Error} {l0 : List Byte} {c d : Chan}
    {st : State} (h : ActiveInv p fin l0 c st) (hs : SilentInv fin2 d st) (hcd : c ≠ d) :
    ActiveInv p fin l0 c (stepReader d st) := by
  rcases hs.stepForm with h1 | ⟨r, -, h1⟩
  · rw [h1]; exact h
  · rw [h1]
    exact h.congr (by simp [hcd]) (by simp) (by simp) (by simp)

/-- The writing reader's own step preserves its invariant, as long as its log sink
never fails. -/
lemma ActiveInv.stepReader_self {p : List Byte} {fin : Error} {l0 : List Byte} {c : Chan}
    {st : State} (h : ActiveInv p fin l0 c st) (hlog : (st.log c).Succeeds) :
    ActiveInv p fin l0 c (stepReader c st) := by
  unfold ActiveInv at h
  obtain ⟨hlen, h⟩ := h
  cases hpc : (st.reader c).pc with
  | idle =>
    have : stepReader c st = st := by unfold stepReader; simp [hpc]
    rw [this]; unfold ActiveInv; rw [hpc]; rw [hpc] at h; exact ⟨hlen, h⟩
  | done ret =>
    have : stepReader c st = st := by unfold stepReader; simp [hpc]
    rw [this]; unfold ActiveInv; rw [hpc]; rw [hpc] at h; exact ⟨hlen, h⟩
  | read =>
    rw [hpc] at h
    simp only at h
    obtain ⟨a, b, hp, hsrc, hmem, hcalls, hl⟩ := h
    cases b with
    | nil =>
      rw [delivers_nil] at hsrc
      have hstep : stepReader c st
          = st.exit c { st.reader c with src := [], buf := (st.reader c).buf } (endRet fin) := by
        unfold stepReader
        simp only [hpc, hsrc, ReadResult.err, ReadResult.store, endRet]
        split <;> rfl
      rw [hstep]; unfold ActiveInv
      simp only [State.reader_exit, if_true, State.buf_exit, State.decCalls_exit, State.log_exit]
      refine ⟨hlen, ?_⟩
      left
      simp only [List.append_nil] at hp
      subst hp
      exact ⟨trivial, hmem, hcalls, hl⟩
    | cons x b =>
      rw [delivers_cons] at hsrc
      have hstep : stepReader c st
          = st.setReader c
              { src := delivers b fin, buf := x, l := (st.reader c).l, pc := PC.wbuf } := by
        unfold stepReader
        simp only [hpc, hsrc, ReadResult.err, ReadResult.store]
      rw [hstep]; unfold ActiveInv
      simp only [State.reader_setReader, if_true, State.buf_setReader, State.decCalls_setReader,
        State.log_setReader]
      exact ⟨hlen, a, x, b, hp, rfl, rfl, hmem, hcalls, hl⟩
  | wbuf =>
    rw [hpc] at h
    simp only at h
    obtain ⟨a, x, b, hp, hbuf, hsrc, hmem, hcalls, hl⟩ := h
    have hstep : stepReader c st
        = st.setReader c { st.reader c with l := st.buf.len, pc := PC.wbufReslice } := by
      unfold stepReader
      simp only [hpc]
    rw [hstep]; unfold ActiveInv
    simp only [State.reader_setReader, if_true, State.buf_setReader, State.decCalls_setReader,
      State.log_setReader]
    exact ⟨hlen, a, x, b, hp, hbuf, hsrc, hmem, hcalls, hl, by rw [hlen, hmem]⟩
  | wbufReslice =>
    rw [hpc] at h
    simp only at h
    obtain ⟨a, x, b, hp, hbuf, hsrc, hmem, hcalls, hl, hll⟩ := h
    have hstep : stepReader c st
        = (st.setBuf (st.buf.reslice (st.reader c).l)).setReader c
            { st.reader c with pc := PC.wbufCopy } := by
      unfold stepReader
      simp only [hpc]
    have hres : st.buf.reslice (st.reader c).l = { mem := a ++ [0], len := a.length + 1 } := by
      simp [Buffer.reslice, hll, hmem]
    rw [hstep, hres]; unfold ActiveInv
    simp only [State.reader_setReader, if_true, State.buf_setReader, State.decCalls_setReader,
      State.log_setReader, State.buf_setBuf, State.decCalls_setBuf, State.log_setBuf]
    exact ⟨by simp, a, x, b, hp, hbuf, hsrc, rfl, hcalls, hl, hll⟩
  | wbufCopy =>
    rw [hpc] at h
    simp only at h
    obtain ⟨a, x, b, hp, hbuf, hsrc, hmem, hcalls, hl, hll⟩ := h
    have hlen1 : st.buf.len = a.length + 1 := by rw [hlen, hmem]; simp
    have hcount : st.buf.copyCount (st.reader c).l = some 1 := by
      simp [Buffer.copyCount, hll, hlen1]
    have hcopy : st.buf.copyAt (st.reader c).l x = { mem := a ++ [x], len := a.length + 1 } := by
      have hlt : (st.reader c).l < st.buf.len := by omega
      unfold Buffer.copyAt
      rw [if_pos hlt, hll, hmem, hlen1, set_last]
    have hstep : stepReader c st
        = (st.setBuf (st.buf.copyAt (st.reader c).l x)).setReader c
            { st.reader c with pc := PC.wdec } := by
      unfold stepReader
      simp only [hpc, hcount, hbuf]
      simp [multiWriterCheck]
    rw [hstep, hcopy]; unfold ActiveInv
    simp only [State.reader_setReader, if_true, State.buf_setReader, State.decCalls_setReader,
      State.log_setReader, State.buf_setBuf, State.decCalls_setBuf, State.log_setBuf]
    exact ⟨by simp, a, x, b, hp, hbuf, hsrc, rfl, hcalls, hl⟩
  | wdec =>
    rw [hpc] at h
    simp only at h
    obtain ⟨a, x, b, hp, hbuf, hsrc, hmem, hcalls, hl⟩ := h
    cases hres : multiWriterCheck [x] (st.decorator.Write [x]).2 with
    | some e =>
      have hstep : stepReader c st = (st.writeDec c x).exit c (st.reader c) (some e) := by
        unfold stepReader
        simp only [hpc, hbuf, hres]
      rw [hstep]; unfold ActiveInv
      simp only [State.reader_exit, if_true, State.buf_exit, State.decCalls_exit, State.log_exit,
        State.buf_writeDec, State.decCalls_writeDec, State.log_writeDec]
      refine ⟨hlen, ?_⟩
      right
      exact ⟨a, x, b, (st.decorator.Write [x]).2, e, hp, hmem, by rw [hcalls], hres, rfl, hl⟩
    | none =>
      have hstep : stepReader c st
          = (st.writeDec c x).setReader c { st.reader c with pc := PC.wlog } := by
        unfold stepReader
        simp only [hpc, hbuf, hres]
      rw [hstep]; unfold ActiveInv
      simp only [State.reader_setReader, if_true, State.buf_setReader, State.decCalls_setReader,
        State.log_setReader, State.buf_writeDec, State.decCalls_writeDec, State.log_writeDec]
      refine ⟨hlen, a, x, b, hp, hbuf, hsrc, hmem, ?_, hl⟩
      rw [hcalls, multiWriterCheck_eq_none hres, okCalls_append]
      rfl
  | wlog =>
    rw [hpc] at h
    simp only at h
    obtain ⟨a, x, b, hp, hbuf, hsrc, hmem, hcalls, hl⟩ := h
    have hw : (st.log c).Write [x]
        = ({ st.log c with received := (st.log c).received ++ [x],
                           calls := (st.log c).calls ++ [[x]] }, { n := 1, err := none }) := by
      simp [Writer.Write, hlog _ _]
    have hstep : stepReader c st
          = (st.setLog c { st.log c with received := (st.log c).received ++ [x],
                                         calls := (st.log c).calls ++ [[x]] }).setReader c
              { st.reader c with pc := PC.read } := by
      unfold stepReader
      simp only [hpc, hbuf, hw]
      rfl
    rw [hstep]; unfold ActiveInv
    simp only [State.reader_setReader, State.reader_setLog, if_true, State.buf_setReader,
      State.decCalls_setReader, State.log_setReader, State.buf_setLog, State.decCalls_setLog,
      State.log_setLog]
    exact ⟨hlen, a ++ [x], b, by simp [hp], hsrc, hmem, hcalls, by simp [hl]⟩

/-- In a run with one writing reader no step of that reader panics. -/
lemma ActiveInv.alive {p : List Byte} {fin : Error} {l0 : List Byte} {c : Chan}
    {st : State} (h : ActiveInv p fin l0 c st) (h0 : st.crashed = false) :
    (stepReader c st).crashed = false := by
  unfold ActiveInv at h
  obtain ⟨hlen, h⟩ := h
  unfold stepReader
  cases hpc : (st.reader c).pc <;> rw [hpc] at h <;> simp only at h ⊢
  case wbufCopy =>
    obtain ⟨a, x, b, hp, hbuf, hsrc, hmem, hcalls, hl, hll⟩ := h
    have hlen1 : st.buf.len = a.length + 1 := by rw [hlen, hmem]; simp
    have hcount : st.buf.copyCount (st.reader c).l = some 1 := by
      simp [Buffer.copyCount, hll, hlen1]
    rw [hcount]
    simp only
    split <;> simp [h0]
  all_goals repeat' split
  all_goals simp [h0]

/-! ## Stream: what a reader's step leaves alone -/

lemma stepReader_caller (c : Chan) (st : State) : (stepReader c st).caller = st.caller := by
  unfold stepReader
  repeat' split
  all_goals simp

lemma stepReader_lock (c : Chan) (st : State) : (stepReader c st).lock = st.lock := by
  unfold stepReader
  repeat' split
  all_goals simp

/-- A reader that has not started, or has ended, does not move. -/
lemma stepReader_of_pending_zero (c : Chan) (st : State) (h : (st.reader c).pending = 0) :
    stepReader c st = st := by
  unfold stepReader
  cases hpc : (st.reader c).pc <;> simp [Reader.pending, hpc] at h ⊢

lemma stepReader_of_idle (c : Chan) (st : State) (h : (st.reader c).pc = PC.idle) :
    stepReader c st = st := by
  unfold stepReader
  simp [h]

/-- A reader's step never moves it into or out of the position before its `go`
statement. -/
lemma stepReader_idle_iff (c : Chan) (st : State) :
    ((stepReader c st).reader c).pc = PC.idle ↔ (st.reader c).pc = PC.idle := by
  unfold stepReader
  cases hpc : (st.reader c).pc
  all_goals simp only [hpc]
  all_goals repeat' split
  all_goals simp [hpc]

/-- The `WaitGroup` counter goes down by one exactly when the reader ends. -/
lemma stepReader_wg (c : Chan) (st : State) (h : (st.reader c).pending ≤ st.wg) :
    (stepReader c st).wg + (st.reader c).pending
      = st.wg + ((stepReader c st).reader c).pending := by
  unfold stepReader
  cases hpc : (st.reader c).pc
  all_goals simp only [hpc]
  all_goals repeat' split
  all_goals simp [Reader.pending, hpc] at h ⊢
  all_goals omega

lemma accepted_append (xs ys : List DecCall) : accepted (xs ++ ys) = accepted xs ++ accepted ys := by
  induction xs with
  | nil => rfl
  | cons x xs ih => simp [accepted, ih]

/-- A reader's step keeps the decorator's content equal to what its calls accepted. -/
lemma stepReader_decReceived (c : Chan) (st : State) (d0 : List Byte)
    (h : st.decorator.received = d0 ++ accepted st.decCalls) :
    (stepReader c st).decorator.received = d0 ++ accepted (stepReader c st).decCalls := by
  unfold stepReader
  repeat' split
  all_goals simp [h, accepted_append, accepted, Writer.Write]

lemma stepReader_decRespond (c : Chan) (st : State) :
    (stepReader c st).decorator.respond = st.decorator.respond := by
  unfold stepReader
  repeat' split
  all_goals simp [Writer.Write]

lemma stepReader_log_respond (c d : Chan) (st : State) :
    ((stepReader c st).log d).respond = (st.log d).respond := by
  unfold stepReader
  repeat' split
  all_goals simp [Writer.Write]
  all_goals split <;> simp_all

lemma stepReader_diag_mono (c : Chan) (st : State) (e : Error) (h : e ∈ st.diag) :
    e ∈ (stepReader c st).diag := by
  unfold stepReader
  repeat' split
  all_goals simp [h]

/-- An error that ends a reader is passed to `logrus.Debug`. -/
lemma stepReader_diag_self (c : Chan) (st : State) (e : Error)
    (hold : (st.reader c).pc = PC.done (some e) → e ∈ st.diag)
    (h : ((stepReader c st).reader c).pc = PC.done (some e)) : e ∈ (stepReader c st).diag := by
  revert h
  unfold stepReader
  cases hpc : (st.reader c).pc
  all_goals simp only [hpc]
  all_goals repeat' split
  all_goals simp [hpc] at hold ⊢
  all_goals first | exact hold | (intro h; simp [h])

/-- One more diagnostic is recorded exactly when the reader ends with an error. -/
lemma stepReader_diag_length (c : Chan) (st : State) :
    (stepReader c st).diag.length + (st.reader c).failed
      = st.diag.length + ((stepReader c st).reader c).failed := by
  unfold stepReader
  cases hpc : (st.reader c).pc
  all_goals simp only [hpc]
  all_goals repeat' split
  all_goals simp [Reader.failed, hpc]

/-- Every recorded decorator call carries an answer of the decorator. -/
lemma stepReader_decResults (c : Chan) (st : State)
    (respond : List (List Byte) → List Byte → WriteResult)
    (hr : st.decorator.respond = respond)
    (h : ∀ d ∈ st.decCalls, ∃ hist, d.result = respond hist [d.byte]) :
    ∀ d ∈ (stepReader c st).decCalls, ∃ hist, d.result = respond hist [d.byte] := by
  unfold stepReader
  repeat' split
  all_goals try simp only [State.decCalls_exit, State.decCalls_setReader, State.decCalls_setLog,
    State.decCalls_setBuf, State.decCalls_writeDec, State.decCalls_panic]
  all_goals first
    | exact h
    | (intro d hd
       rcases List.mem_append.mp hd with hd | hd
       · exact h d hd
       · rw [List.mem_singleton] at hd
         subst hd
         exact ⟨st.decorator.calls, by simp [Writer.Write, hr]⟩)

/-- What a reader's step does to the counter and to the two goroutines' positions. -/
lemma stepReader_summary (c : Chan) (st : State)
    (hwg : st.wg = st.rOut.pending + st.rErr.pending) :
    (stepReader c st).wg = (stepReader c st).rOut.pending + (stepReader c st).rErr.pending ∧
    ((stepReader c st).rOut.pc = PC.idle ↔ st.rOut.pc = PC.idle) ∧
    ((stepReader c st).rErr.pc = PC.idle ↔ st.rErr.pc = PC.idle) := by
  cases c with
  | stdout =>
    have h1 := stepReader_wg Chan.stdout st (by show st.rOut.pending ≤ st.wg; omega)
    have h2 : (stepReader Chan.stdout st).rErr = st.rErr :=
      stepReader_reader_other Chan.stderr Chan.stdout st (by decide)
    have h3 := stepReader_idle_iff Chan.stdout st
    change (stepReader Chan.stdout st).wg + st.rOut.pending
      = st.wg + (stepReader Chan.stdout st).rOut.pending at h1
    refine ⟨by rw [h2]; omega, h3, by rw [h2]⟩
  | stderr =>
    have h1 := stepReader_wg Chan.stderr st (by show st.rErr.pending ≤ st.wg; omega)
    have h2 : (stepReader Chan.stderr st).rOut = st.rOut :=
      stepReader_reader_other Chan.stdout Chan.stderr st (by decide)
    have h3 := stepReader_idle_iff Chan.stderr st
    change (stepReader Chan.stderr st).wg + st.rErr.pending
      = st.wg + (stepReader Chan.stderr st).rErr.pending at h1
    refine ⟨by rw [h2]; omega, by rw [h2], h3⟩

/-- A reader's step preserves the caller's invariant. -/
lemma CallerInv.keptByReader {st : State} (h : CallerInv st) (c : Chan) :
    CallerInv (stepReader c st) := by
  unfold CallerInv at h
  cases hc : st.caller <;> rw [hc] at h <;> simp only at h
  case lock =>
    have : stepReader c st = st := by
      cases c
      · exact stepReader_of_idle Chan.stdout st h.2.2.1
      · exact stepReader_of_idle Chan.stderr st h.2.2.2
    rw [this]; unfold CallerInv; rw [hc]; exact h
  case go1 =>
    have := stepReader_summary c st h.1
    unfold CallerInv; rw [stepReader_caller, hc]
    exact ⟨this.1, this.2.1.mpr h.2.1, this.2.2.mpr h.2.2⟩
  case go2 =>
    have := stepReader_summary c st h.1
    unfold CallerInv; rw [stepReader_caller, hc]
    exact ⟨this.1, fun h1 => h.2.1 (this.2.1.mp h1), this.2.2.mpr h.2.2⟩
  case unlock =>
    have := stepReader_summary c st h.1
    unfold CallerInv; rw [stepReader_caller, hc]
    exact ⟨this.1, fun h1 => h.2.1 (this.2.1.mp h1), fun h1 => h.2.2 (this.2.2.mp h1)⟩
  case wait =>
    have := stepReader_summary c st h.1
    unfold CallerInv; rw [stepReader_caller, hc]
    exact ⟨this.1, fun h1 => h.2.1 (this.2.1.mp h1), fun h1 => h.2.2 (this.2.2.mp h1)⟩
  case send =>
    have : stepReader c st = st := by
      cases c
      · exact stepReader_of_pending_zero Chan.stdout st h.2.1
      · exact stepReader_of_pending_zero Chan.stderr st h.2.2
    rw [this]; unfold CallerInv; rw [hc]; exact h
  case closeOut =>
    have : stepReader c st = st := by
      cases c
      · exact stepReader_of_pending_zero Chan.stdout st h.2.1
      · exact stepReader_of_pending_zero Chan.stderr st h.2.2.1
    rw [this]; unfold CallerInv; rw [hc]; exact h
  case returned =>
    have : stepReader c st = st := by
      cases c
      · exact stepReader_of_pending_zero Chan.stdout st h.2.1
      · exact stepReader_of_pending_zero Chan.stderr st h.2.2.1
    rw [this]; unfold CallerInv; rw [hc]; exact h

/-- A reader's step preserves the invariant of the run. -/
lemma Inv.afterReader {c : Chan} {p : List Byte} {fin fin2 : Error} {dec : Writer}
    {l0 l2 : List Byte} {st : State} (h : Inv c p fin fin2 dec l0 l2 st) (d : Chan) :
    Inv c p fin fin2 dec l0 l2 (stepReader d st) := by
  have hdiagO : ∀ e, (stepReader d st).rOut.pc = PC.done (some e) → e ∈ (stepReader d st).diag := by
    intro e he
    cases d
    · exact stepReader_diag_self Chan.stdout st e (h.diagOut e) he
    · have h2 : (stepReader Chan.stderr st).rOut = st.rOut :=
        stepReader_reader_other Chan.stdout Chan.stderr st (by decide)
      rw [h2] at he
      exact stepReader_diag_mono _ _ _ (h.diagOut e he)
  have hdiagE : ∀ e, (stepReader d st).rErr.pc = PC.done (some e) → e ∈ (stepReader d st).diag := by
    intro e he
    cases d
    · have h2 : (stepReader Chan.stdout st).rErr = st.rErr :=
        stepReader_reader_other Chan.stderr Chan.stdout st (by decide)
      rw [h2] at he
      exact stepReader_diag_mono _ _ _ (h.diagErr e he)
    · exact stepReader_diag_self Chan.stderr st e (h.diagErr e) he
  have hcount : (stepReader d st).diag.length
      = (stepReader d st).rOut.failed + (stepReader d st).rErr.failed := by
    have hcount := h.diagCount
    cases d
    · have h2 : (stepReader Chan.stdout st).rErr = st.rErr :=
        stepReader_reader_other Chan.stderr Chan.stdout st (by decide)
      have h3 := stepReader_diag_length Chan.stdout st
      change (stepReader Chan.stdout st).diag.length + st.rOut.failed
        = st.diag.length + (stepReader Chan.stdout st).rOut.failed at h3
      rw [h2]; omega
    · have h2 : (stepReader Chan.stderr st).rOut = st.rOut :=
        stepReader_reader_other Chan.stdout Chan.stderr st (by decide)
      have h3 := stepReader_diag_length Chan.stderr st
      change (stepReader Chan.stderr st).diag.length + st.rErr.failed
        = st.diag.length + (stepReader Chan.stderr st).rErr.failed at h3
      rw [h2]; omega
  have hsucc : ((stepReader d st).log c).Succeeds := by
    intro a b
    rw [stepReader_log_respond d c st]; exact h.logSucceeds a b
  by_cases hdc : d = c
  · subst hdc
    exact ⟨h.active.stepReader_self h.logSucceeds,
      h.silent.transfer (stepReader_reader_other _ _ st (Chan.other_ne d)),
      by rw [stepReader_log_other _ _ st (Chan.other_ne d)]; exact h.logSilent,
      h.caller.keptByReader d, h.active.alive h.alive,
      stepReader_decReceived d st _ h.decReceived,
      by rw [stepReader_decRespond]; exact h.decRespond, hsucc, hdiagO, hdiagE, hcount,
      stepReader_decResults d st _ h.decRespond h.decResults⟩
  · have hd : d = c.other := Chan.eq_other_of_ne hdc
    subst hd
    have halive : (stepReader c.other st).crashed = false := by
      rcases h.silent.stepForm with h1 | ⟨r, -, h1⟩
      · rw [h1]; exact h.alive
      · rw [h1]; simp [h.alive]
    have hlogS : ((stepReader c.other st).log c.other).received = l2 := by
      rcases h.silent.stepForm with h1 | ⟨r, -, h1⟩
      · rw [h1]; exact h.logSilent
      · rw [h1]; simp [h.logSilent]
    exact ⟨h.active.stepReader_other h.silent (Ne.symm (Chan.other_ne c)),
      h.silent.ownStep, hlogS, h.caller.keptByReader _, halive,
      stepReader_decReceived _ st _ h.decReceived,
      by rw [stepReader_decRespond]; exact h.decRespond, hsucc, hdiagO, hdiagE, hcount,
      stepReader_decResults _ st _ h.decRespond h.decResults⟩

/-! ## Stream: the caller's steps -/

/-- A `go` statement turns the invariant of a goroutine that has not started into the
invariant of one about to read. -/
lemma ActiveInv.spawn {p : List Byte} {fin : Error} {l0 : List Byte} {c : Chan} {st st1 : State}
    (h : ActiveInv p fin l0 c st) (hidle : (st.reader c).pc = PC.idle)
    (hr : st1.reader c = { st.reader c with pc := PC.read })
    (hb : st1.buf = st.buf) (hd : st1.decCalls = st.decCalls)
    (hl : st1.log c = st.log c) : ActiveInv p fin l0 c st1 := by
  unfold ActiveInv at h ⊢
  rw [hidle] at h
  simp only at h
  rw [hr, hb, hd, hl]
  exact ⟨h.1, [], p, rfl, h.2.1, h.2.2.1, h.2.2.2.1, by simpa using h.2.2.2.2⟩

lemma SilentInv.spawned {fin : Error} {d : Chan} {st st1 : State}
    (h : SilentInv fin d st) (hidle : (st.reader d).pc = PC.idle)
    (hr : st1.reader d = { st.reader d with pc := PC.read }) : SilentInv fin d st1 := by
  unfold SilentInv at h ⊢
  rw [hidle] at h
  simp only at h
  rw [hr]
  exact h

/-- The caller's step preserves the invariant of the writing reader. -/
lemma ActiveInv.keptByCaller {p : List Byte} {fin : Error} {l0 : List Byte} {c : Chan}
    {st : State} (h : ActiveInv p fin l0 c st) (hc : CallerInv st) :
    ActiveInv p fin l0 c (stepCaller st) := by
  unfold CallerInv at hc
  unfold stepCaller
  cases hpc : st.caller <;> rw [hpc] at hc <;> simp only at hc ⊢
  case lock => split <;> cases c <;> exact h
  case go1 =>
    cases c
    · exact h.spawn hc.2.1 rfl rfl rfl rfl
    · exact h.congr rfl rfl rfl rfl
  case go2 =>
    cases c
    · exact h.congr rfl rfl rfl rfl
    · exact h.spawn hc.2.2 rfl rfl rfl rfl
  case wait => split <;> cases c <;> exact h
  case returned => exact h
  all_goals cases c <;> exact h.congr rfl rfl rfl rfl

/-- The caller's step preserves the invariant of the silent reader. -/
lemma SilentInv.heldByCaller {fin : Error} {d : Chan} {st : State}
    (h : SilentInv fin d st) (hc : CallerInv st) : SilentInv fin d (stepCaller st) := by
  unfold CallerInv at hc
  unfold stepCaller
  cases hpc : st.caller <;> rw [hpc] at hc <;> simp only at hc ⊢
  case lock => split <;> cases d <;> exact h
  case go1 =>
    cases d
    · exact h.spawned hc.2.1 rfl
    · exact h.transfer rfl
  case go2 =>
    cases d
    · exact h.transfer rfl
    · exact h.spawned hc.2.2 rfl
  case wait => split <;> cases d <;> exact h
  case returned => exact h
  all_goals cases d <;> exact h.transfer rfl

/-- The caller's step preserves its own invariant. -/
lemma CallerInv.advance {st : State} (hc : CallerInv st) : CallerInv (stepCaller st) := by
  have hc0 := hc
  unfold CallerInv at hc
  unfold stepCaller
  cases hpc : st.caller <;> rw [hpc] at hc <;> simp only at hc ⊢
  case lock =>
    rw [if_neg (by simp [hc.1])]
    unfold CallerInv
    simp [hc, Reader.pending]
  case go1 =>
    unfold CallerInv
    have h1 := hc.1
    simp [hc, Reader.pending, State.setReader] at h1 ⊢
  case go2 =>
    unfold CallerInv
    have h1 := hc.1
    simp [hc, Reader.pending, State.setReader] at h1 ⊢
  case unlock =>
    unfold CallerInv
    exact hc
  case wait =>
    by_cases hwg : st.wg = 0
    · rw [if_pos hwg]
      unfold CallerInv
      have h1 := hc.1
      simp only
      omega
    · rw [if_neg hwg]
      exact hc0
  case send =>
    unfold CallerInv
    exact ⟨hc.1, hc.2.1, hc.2.2, rfl⟩
  case closeOut =>
    unfold CallerInv
    exact ⟨hc.1, hc.2.1, hc.2.2.1, hc.2.2.2, rfl⟩
  case returned => exact hc0

/-- What the caller's step leaves alone. -/
lemma stepCaller_frame (st : State) :
    (stepCaller st).crashed = st.crashed ∧ (stepCaller st).decorator = st.decorator ∧
    (stepCaller st).decCalls = st.decCalls ∧ (stepCaller st).diag = st.diag ∧
    (stepCaller st).logStdout = st.logStdout ∧ (stepCaller st).logStderr = st.logStderr ∧
    (stepCaller st).buf = st.buf := by
  unfold stepCaller
  cases st.caller <;> simp only [] <;> repeat' split
  all_goals simp [State.setReader]

/-- The caller starts a goroutine that has not started, and moves no other. -/
lemma stepCaller_reader (st : State) (hc : CallerInv st) (c : Chan) :
    ((stepCaller st).reader c).failed = (st.reader c).failed ∧
    (∀ ret, ((stepCaller st).reader c).pc = PC.done ret → (st.reader c).pc = PC.done ret) := by
  unfold CallerInv at hc
  unfold stepCaller
  cases hpc : st.caller <;> rw [hpc] at hc <;> simp only at hc ⊢
  all_goals repeat' split
  all_goals cases c <;> simp [State.reader, State.setReader, Reader.failed, hc]

/-- The caller's step preserves the invariant of the run. -/
lemma Inv.afterCaller {c : Chan} {p : List Byte} {fin fin2 : Error} {dec : Writer}
    {l0 l2 : List Byte} {st : State} (h : Inv c p fin fin2 dec l0 l2 st) :
    Inv c p fin fin2 dec l0 l2 (stepCaller st) := by
  obtain ⟨f1, f2, f3, f4, f5, f6, f7⟩ := stepCaller_frame st
  have hlog : ∀ d : Chan, (stepCaller st).log d = st.log d := by
    intro d; cases d
    · exact f5
    · exact f6
  refine ⟨h.active.keptByCaller h.caller, h.silent.heldByCaller h.caller, ?_,
    h.caller.advance, by rw [f1]; exact h.alive, by rw [f2, f3]; exact h.decReceived,
    by rw [f2]; exact h.decRespond, by rw [hlog]; exact h.logSucceeds, ?_, ?_, ?_,
    by rw [f3]; exact h.decResults⟩
  · rw [hlog]; exact h.logSilent
  · intro e he
    rw [f4]
    exact h.diagOut e ((stepCaller_reader st h.caller Chan.stdout).2 _ he)
  · intro e he
    rw [f4]
    exact h.diagErr e ((stepCaller_reader st h.caller Chan.stderr).2 _ he)
  · have h1 := (stepCaller_reader st h.caller Chan.stdout).1
    have h2 := (stepCaller_reader st h.caller Chan.stderr).1
    change (stepCaller st).rOut.failed = st.rOut.failed at h1
    change (stepCaller st).rErr.failed = st.rErr.failed at h2
    rw [f4, h1, h2]; exact h.diagCount

/-- While the invariant holds the process has not crashed, so a step is the step of the
thread picked. -/
lemma Inv.step_eq {c : Chan} {p : List Byte} {fin fin2 : Error} {dec : Writer}
    {l0 l2 : List Byte} {st : State} (h : Inv c p fin fin2 dec l0 l2 st) (t : Tid) :
    Taskctl.step st t = match t with
      | Tid.caller => stepCaller st
      | Tid.reader d => stepReader d st := by
  unfold Taskctl.step
  rw [h.alive]
  rfl

/-- Every step preserves the invariant of the run. -/
lemma Inv.step {c : Chan} {p : List Byte} {fin fin2 : Error} {dec : Writer}
    {l0 l2 : List Byte} {st : State} (h : Inv c p fin fin2 dec l0 l2 st) (t : Tid) :
    Inv c p fin fin2 dec l0 l2 (Taskctl.step st t) := by
  rw [h.step_eq t]
  cases t with
  | caller => exact h.afterCaller
  | reader d => exact h.afterReader d

/-- Every schedule preserves the invariant of the run. -/
lemma Inv.exec {c : Chan} {p : List Byte} {fin fin2 : Error} {dec : Writer}
    {l0 l2 : List Byte} (sched : List Tid) :
    ∀ {st : State}, Inv c p fin fin2 dec l0 l2 st →
      Inv c p fin fin2 dec l0 l2 (Taskctl.exec st sched) := by
  induction sched with
  | nil => intro st h; exact h
  | cons t ts ih => intro st h; exact ih (h.step t)

/-- The invariant holds when `Stream` is entered with only stdout delivering bytes. -/
lemma Inv.init_stdout (p : List Byte) (fin fin2 : Error) (dec : Writer) (t : Task)
    (hlo : t.Log.Stdout.Succeeds) :
    Inv Chan.stdout p fin fin2 dec t.Log.Stdout.received t.Log.Stderr.received
      (State.init dec t (delivers p fin) (delivers [] fin2)) := by
  refine ⟨?_, ?_, rfl, ?_, rfl, by simp [State.init, accepted], rfl, hlo, ?_, ?_, rfl, ?_⟩
  · unfold ActiveInv
    simp [State.init, State.reader, State.log, okCalls, Buffer.empty]
  · unfold SilentInv; simp [State.init, State.reader, Chan.other]
  · unfold CallerInv; simp [State.init]
  · intro e he; simp [State.init] at he
  · intro e he; simp [State.init] at he
  · intro d hd; simp [State.init] at hd

/-- The invariant holds when `Stream` is entered with only stderr delivering bytes. -/
lemma Inv.init_stderr (q : List Byte) (fin fin2 : Error) (dec : Writer) (t : Task)
    (hle : t.Log.Stderr.Succeeds) :
    Inv Chan.stderr q fin fin2 dec t.Log.Stderr.received t.Log.Stdout.received
      (State.init dec t (delivers [] fin2) (delivers q fin)) := by
  refine ⟨?_, ?_, rfl, ?_, rfl, by simp [State.init, accepted], rfl, hle, ?_, ?_, rfl, ?_⟩
  · unfold ActiveInv
    simp [State.init, State.reader, State.log, okCalls, Buffer.empty]
  · unfold SilentInv; simp [State.init, State.reader, Chan.other]
  · unfold CallerInv; simp [State.init]
  · intro e he; simp [State.init] at he
  · intro e he; simp [State.init] at he
  · intro d hd; simp [State.init] at hd

/-! ## Stream: every thread comes to its end -/

lemma exec_append (st : State) (xs ys : List Tid) :
    exec st (xs ++ ys) = exec (exec st xs) ys := by
  simp [exec, List.foldl_append]

lemma exec_replicate_succ (st : State) (n : Nat) (t : Tid) :
    exec st (List.replicate (n + 1) t) = exec (step st t) (List.replicate n t) := by
  simp [exec, List.replicate_succ]

/-- The caller never moves backwards. -/
lemma rank_stepCaller_mono (st : State) : st.caller.rank ≤ (stepCaller st).caller.rank := by
  unfold stepCaller
  cases hpc : st.caller <;> simp only [] <;> repeat' split
  all_goals simp [CallerPC.rank, hpc, State.setReader]

/-- Up to `wg.Wait()` the caller is never held up. -/
lemma rank_stepCaller_succ {st : State} (h : CallerInv st) (h4 : st.caller.rank < 4) :
    (stepCaller st).caller.rank = st.caller.rank + 1 := by
  unfold CallerInv at h
  unfold stepCaller
  cases hpc : st.caller <;> rw [hpc] at h <;> simp only [hpc, CallerPC.rank] at h h4 ⊢
  all_goals first | omega | simp [h.1, CallerPC.rank, State.setReader]

/-- After four steps of its own the caller stands at `wg.Wait()` or beyond. -/
lemma rank_exec_caller {c : Chan} {p : List Byte} {fin fin2 : Error} {dec : Writer}
    {l0 l2 : List Byte} (n : Nat) : ∀ {st : State}, Inv c p fin fin2 dec l0 l2 st →
      min 4 (st.caller.rank + n) ≤ (exec st (List.replicate n Tid.caller)).caller.rank := by
  induction n with
  | zero => intro st _; simp [exec]
  | succ n ih =>
    intro st h
    rw [exec_replicate_succ]
    have h1 := ih (h.step Tid.caller)
    have h2 := rank_stepCaller_mono st
    rw [h.step_eq Tid.caller] at h1 ⊢
    simp only at h1 ⊢
    by_cases h4 : st.caller.rank < 4
    · have h3 := rank_stepCaller_succ h.caller h4
      omega
    · omega

/-- Each step of a started reader that does not panic uses up one unit of its fuel. -/
lemma fuel_stepReader (c : Chan) (st : State) (h : (st.reader c).pc ≠ PC.idle)
    (h0 : st.crashed = false) (h1 : (stepReader c st).crashed = false) :
    ((stepReader c st).reader c).fuel ≤ (st.reader c).fuel - 1 := by
  revert h1
  unfold stepReader
  cases hpc : (st.reader c).pc
  all_goals simp only [hpc]
  all_goals repeat' split
  all_goals simp_all [Reader.fuel]
  all_goals omega

/-- A started reader that is given as many steps as it has fuel ends. -/
lemma reader_ends {c : Chan} {p : List Byte} {fin fin2 : Error} {dec : Writer}
    {l0 l2 : List Byte} (d : Chan) (n : Nat) :
    ∀ st : State, Inv c p fin fin2 dec l0 l2 st → (st.reader d).pc ≠ PC.idle →
      (st.reader d).fuel ≤ n →
        ((exec st (List.replicate n (Tid.reader d))).reader d).pending = 0 := by
  induction n with
  | zero =>
    intro st _ hidle hfuel
    simp only [exec, List.replicate_zero, List.foldl_nil]
    cases hpc : (st.reader d).pc <;> simp_all [Reader.fuel, Reader.pending]
  | succ n ih =>
    intro st hinv hidle hfuel
    rw [exec_replicate_succ]
    have hinv1 := hinv.step (Tid.reader d)
    rw [hinv.step_eq (Tid.reader d)] at hinv1 ⊢
    simp only at hinv1 ⊢
    apply ih _ hinv1
    · exact fun h => hidle ((stepReader_idle_iff d st).mp h)
    · have := fuel_stepReader d st hidle hinv.alive hinv1.alive
      omega

/-- The steps of one reader leave the other reader where it is. -/
lemma exec_reader_other (c d : Chan) (hcd : c ≠ d) (n : Nat) :
    ∀ st : State, (exec st (List.replicate n (Tid.reader d))).reader c = st.reader c := by
  induction n with
  | zero => intro st; rfl
  | succ n ih =>
    intro st
    rw [exec_replicate_succ, ih]
    unfold step
    split
    · rfl
    · exact stepReader_reader_other c d st hcd

/-- The steps of a reader leave the caller where it is. -/
lemma exec_reader_caller (d : Chan) (n : Nat) :
    ∀ st : State, (exec st (List.replicate n (Tid.reader d))).caller = st.caller := by
  induction n with
  | zero => intro st; rfl
  | succ n ih =>
    intro st
    rw [exec_replicate_succ, ih]
    unfold step
    split
    · rfl
    · exact stepReader_caller d st

/-- No step gives a reader more fuel. -/
lemma fuel_step_le {c : Chan} {p : List Byte} {fin fin2 : Error} {dec : Writer}
    {l0 l2 : List Byte} (d : Chan) {st : State} (hinv : Inv c p fin fin2 dec l0 l2 st)
    (t : Tid) : ((step st t).reader d).fuel ≤ (st.reader d).fuel := by
  have hinv1 := hinv.step t
  rw [hinv.step_eq t] at hinv1 ⊢
  cases t with
  | caller =>
    simp only
    have h := hinv.caller
    unfold CallerInv at h
    unfold stepCaller
    cases hpc : st.caller <;> rw [hpc] at h <;> simp only [] at h ⊢ <;> repeat' split
    all_goals cases d <;> simp [State.reader, State.setReader, Reader.fuel, h]
  | reader d2 =>
    simp only at hinv1 ⊢
    by_cases hcd : d = d2
    · subst hcd
      by_cases hidle : (st.reader d).pc = PC.idle
      · rw [stepReader_of_idle d st hidle]
      · have := fuel_stepReader d st hidle hinv.alive hinv1.alive
        omega
    · rw [stepReader_reader_other d d2 st hcd]

lemma fuel_exec_le {c : Chan} {p : List Byte} {fin fin2 : Error} {dec : Writer}
    {l0 l2 : List Byte} (d : Chan) (sched : List Tid) :
    ∀ {st : State}, Inv c p fin fin2 dec l0 l2 st →
      ((exec st sched).reader d).fuel ≤ (st.reader d).fuel := by
  induction sched with
  | nil => intro st _; exact le_refl _
  | cons t ts ih => intro st h; exact le_trans (ih (h.step t)) (fuel_step_le d h t)

/-- Once both readers have ended, three steps take the caller from `wg.Wait()` to its
return. -/
lemma caller_returns {st : State} (h : CallerInv st) (h0 : st.crashed = false)
    (h4 : 4 ≤ st.caller.rank) (ho : st.rOut.pending = 0) (he : st.rErr.pending = 0) :
    (exec st (List.replicate 3 Tid.caller)).caller = CallerPC.returned := by
  unfold CallerInv at h
  cases hpc : st.caller <;> rw [hpc] at h <;> simp only [hpc, CallerPC.rank] at h h4
  all_goals first | omega | skip
  · have hwg : st.wg = 0 := by omega
    simp [exec, step, stepCaller, hpc, hwg, h0]
  · simp [exec, step, stepCaller, hpc, h0]
  · simp [exec, step, stepCaller, hpc, h0]
  · simp [exec, step, stepCaller, hpc, h0]

/-- In a run with one silent channel, whatever the schedule, `Stream` returns, and the
invariant holds in its final state. -/
lemma Stream_ends {c : Chan} {p : List Byte} {fin fin2 : Error} {dec : Writer}
    {l0 l2 : List Byte} (t : Task) (s1 s2 : Source) (sched : List Tid)
    (h0 : Inv c p fin fin2 dec l0 l2 (State.init dec t s1 s2)) :
    Inv c p fin fin2 dec l0 l2 (Stream dec t s1 s2 sched) ∧
      (Stream dec t s1 s2 sched).caller = CallerPC.returned := by
  have hfo : ((State.init dec t s1 s2).reader Chan.stdout).fuel ≤ 6 * (s1.length + 1) := by
    simp [State.init, State.reader, Reader.fuel]
    omega
  have hfe : ((State.init dec t s1 s2).reader Chan.stderr).fuel ≤ 6 * (s2.length + 1) := by
    simp [State.init, State.reader, Reader.fuel]
    omega
  unfold Stream completion
  generalize State.init dec t s1 s2 = s0 at h0 hfo hfe
  generalize 6 * (s1.length + 1) = n1 at hfo
  generalize 6 * (s2.length + 1) = n2 at hfe
  rw [exec_append, exec_append, exec_append, exec_append]
  have h1 := Inv.exec sched h0
  have f1o := fuel_exec_le Chan.stdout sched h0
  have f1e := fuel_exec_le Chan.stderr sched h0
  generalize exec s0 sched = s1 at h1 f1o f1e
  have h2 := Inv.exec (List.replicate 4 Tid.caller) h1
  have r2 := rank_exec_caller 4 h1
  have f2o := fuel_exec_le Chan.stdout (List.replicate 4 Tid.caller) h1
  have f2e := fuel_exec_le Chan.stderr (List.replicate 4 Tid.caller) h1
  generalize exec s1 (List.replicate 4 Tid.caller) = s2 at h2 r2 f2o f2e
  have r2 : 4 ≤ s2.caller.rank := by omega
  have hidle : s2.rOut.pc ≠ PC.idle ∧ s2.rErr.pc ≠ PC.idle := by
    have hc := h2.caller
    unfold CallerInv at hc
    cases hpc : s2.caller <;> rw [hpc] at hc <;> simp only [hpc, CallerPC.rank] at hc r2
    all_goals first
      | omega
      | exact ⟨hc.2.1, hc.2.2⟩
      | (refine ⟨fun h => ?_, fun h => ?_⟩
         · have := hc.2.1; simp [Reader.pending, h] at this
         · have := hc.2.2.1; simp [Reader.pending, h] at this)
      | (refine ⟨fun h => ?_, fun h => ?_⟩
         · have := hc.2.1; simp [Reader.pending, h] at this
         · have := hc.2.2; simp [Reader.pending, h] at this)
  have h3 := Inv.exec (List.replicate n1 (Tid.reader Chan.stdout)) h2
  have e3 := reader_ends Chan.stdout n1 s2 h2 hidle.1 (by omega)
  have o3 := exec_reader_other Chan.stderr Chan.stdout (by decide) n1 s2
  have c3 := exec_reader_caller Chan.stdout n1 s2
  generalize exec s2 (List.replicate n1 (Tid.reader Chan.stdout)) = s3 at h3 e3 o3 c3
  have h4 := Inv.exec (List.replicate n2 (Tid.reader Chan.stderr)) h3
  have e4 := reader_ends Chan.stderr n2 s3 h3 (by rw [o3]; exact hidle.2) (by rw [o3]; omega)
  have o4 := exec_reader_other Chan.stdout Chan.stderr (by decide) n2 s3
  have c4 := exec_reader_caller Chan.stderr n2 s3
  generalize exec s3 (List.replicate n2 (Tid.reader Chan.stderr)) = s4 at h4 e4 o4 c4
  refine ⟨Inv.exec _ h4, caller_returns h4.caller h4.alive (by rw [c4, c3]; exact r2) ?_ e4⟩
  change (s4.reader Chan.stdout).pending = 0
  rw [o4]; exact e3

/-! ## Stream: reading off the final state -/

lemma pending_eq_zero {r : Reader} (h : r.pending = 0) : ∃ ret, r.pc = PC.done ret := by
  unfold Reader.pending at h
  cases hpc : r.pc <;> rw [hpc] at h <;> simp at h
  exact ⟨_, rfl⟩

lemma accepted_okCalls (c : Chan) (a : List Byte) : accepted (okCalls c a) = a := by
  induction a with
  | nil => rfl
  | cons x xs ih =>
    simp only [okCalls, List.map_cons, accepted] at ih ⊢
    rw [ih]; rfl

/-- The final state of a run with one silent channel, whatever the decorator does: the
call has returned, the value sent is the content of the capture buffer, the silent
reader has ended without writing, and the writing reader has either come to the end of
its source or was stopped by the decorator. -/
lemma Inv.final {c : Chan} {p : List Byte} {fin fin2 : Error} {dec : Writer}
    {l0 l2 : List Byte} {st : State} (h : Inv c p fin fin2 dec l0 l2 st)
    (hret : st.caller = CallerPC.returned) :
    st.outClosed = true ∧ st.out = some st.buf.mem ∧
    (st.reader c.other).pc = PC.done (endRet fin2) ∧ (st.log c.other).received = l2 ∧
    ∃ ret, (st.reader c).pc = PC.done ret ∧
      ((ret = endRet fin ∧ st.buf.mem = p ∧ st.decCalls = okCalls c p ∧
          (st.log c).received = l0 ++ p) ∨
       (∃ a x b res e, p = a ++ x :: b ∧ st.buf.mem = a ++ [x] ∧
          st.decCalls = okCalls c a ++ [{ chan := c, byte := x, result := res }] ∧
          multiWriterCheck [x] res = some e ∧ ret = some e ∧
          (st.log c).received = l0 ++ a)) := by
  have hc := h.caller
  unfold CallerInv at hc
  rw [hret] at hc
  simp only at hc
  have hdone : ∀ d : Chan, ∃ ret, (st.reader d).pc = PC.done ret := by
    intro d; cases d
    · exact pending_eq_zero hc.2.1
    · exact pending_eq_zero hc.2.2.1
  have hact := h.active
  unfold ActiveInv at hact
  obtain ⟨hlen, hact⟩ := hact
  have hbytes : st.buf.Bytes = st.buf.mem := by
    unfold Buffer.Bytes; rw [hlen]; simp
  obtain ⟨r2, hr2⟩ := hdone c.other
  have hsil := h.silent
  unfold SilentInv at hsil
  rw [hr2] at hsil
  simp only at hsil
  obtain ⟨ret, hr⟩ := hdone c
  rw [hr] at hact
  refine ⟨hc.2.2.2.2, by rw [hc.2.2.2.1, hbytes], by rw [hr2, hsil], h.logSilent, ret, hr, hact⟩

/-- The error that ended a reader is among the diagnostics. -/
lemma Inv.diag_mem {c : Chan} {p : List Byte} {fin fin2 : Error} {dec : Writer}
    {l0 l2 : List Byte} {st : State} (h : Inv c p fin fin2 dec l0 l2 st) (d : Chan) (e : Error)
    (hd : (st.reader d).pc = PC.done (some e)) : e ∈ st.diag := by
  cases d
  · exact h.diagOut e hd
  · exact h.diagErr e hd

/-- The final state of a run with one silent channel and a decorator that never fails:
the writing reader has come to the end of its source and every destination holds its
bytes. -/
lemma Inv.final_ok {c : Chan} {p : List Byte} {fin fin2 : Error} {dec : Writer}
    {l0 l2 : List Byte} {st : State} (h : Inv c p fin fin2 dec l0 l2 st)
    (hret : st.caller = CallerPC.returned) (hdec : dec.Succeeds) :
    st.outClosed = true ∧ st.out = some p ∧
    (st.reader c).pc = PC.done (endRet fin) ∧ (st.reader c.other).pc = PC.done (endRet fin2) ∧
    (st.log c).received = l0 ++ p ∧ (st.log c.other).received = l2 ∧
    st.decorator.received = dec.received ++ p := by
  obtain ⟨h1, h2, h3, h4, ret, hr, hcase⟩ := h.final hret
  rcases hcase with ⟨hret1, hmem, hcalls, hl⟩ | ⟨a, x, b, res, e, _, _, hcalls, hcheck, _, _⟩
  · refine ⟨h1, by rw [h2, hmem], by rw [hr, hret1], h3, hl, h4, ?_⟩
    rw [h.decReceived, hcalls, accepted_okCalls]
  · exfalso
    have hmem : ({ chan := c, byte := x, result := res } : DecCall) ∈ st.decCalls := by
      rw [hcalls]; simp
    obtain ⟨hist, hh⟩ := h.decResults _ hmem
    simp only at hh
    rw [hh, hdec hist [x]] at hcheck
    simp [multiWriterCheck] at hcheck

/-- The final state of a run with one silent channel, whatever the decorator does, in
terms of the decorator calls made. -/
lemma Inv.final_calls {c : Chan} {p : List Byte} {fin fin2 : Error} {dec : Writer}
    {l0 l2 : List Byte} {st : State} (h : Inv c p fin fin2 dec l0 l2 st)
    (hret : st.caller = CallerPC.returned) :
    st.outClosed = true ∧
    (st.reader c.other).pc = PC.done (endRet fin2) ∧ (st.log c.other).received = l2 ∧
    (∀ (d : DecCall) (e : Error), d ∈ st.decCalls → d.result.err = some e →
      d.chan = c ∧ (st.reader c).pc = PC.done (some e) ∧ e ∈ st.diag ∧
      ∃ a b, p = a ++ d.byte :: b ∧ st.out = some (a ++ [d.byte]) ∧
        (st.log c).received = l0 ++ a) ∧
    ((∀ d ∈ st.decCalls, multiWriterCheck [d.byte] d.result = none) →
      (st.reader c).pc = PC.done (endRet fin) ∧ st.out = some p ∧
        (st.log c).received = l0 ++ p) := by
  obtain ⟨h1, h2, h3, h4, ret, hr, hcase⟩ := h.final hret
  refine ⟨h1, h3, h4, ?_, ?_⟩
  · intro d e hd herr
    rcases hcase with ⟨-, -, hcalls, -⟩ | ⟨a, x, b, res, e1, hp, hmem, hcalls, hchk, hre, hl⟩
    · rw [hcalls] at hd
      simp only [okCalls, List.mem_map] at hd
      obtain ⟨y, -, hy⟩ := hd
      rw [← hy] at herr
      simp at herr
    · rw [hcalls] at hd
      rcases List.mem_append.mp hd with hm | hm
      · simp only [okCalls, List.mem_map] at hm
        obtain ⟨y, -, hy⟩ := hm
        rw [← hy] at herr
        simp at herr
      · rw [List.mem_singleton] at hm
        subst hm
        simp only at herr
        have he1 : e1 = e := by
          simp [multiWriterCheck, herr] at hchk
          exact hchk.symm
        subst he1
        subst hre
        exact ⟨rfl, hr, h.diag_mem c _ hr, a, b, hp, by rw [h2, hmem], hl⟩
  · intro hall
    rcases hcase with ⟨hre, hmem, -, hl⟩ | ⟨a, x, b, res, e1, -, -, hcalls, hchk, -, -⟩
    · exact ⟨by rw [hr, hre], by rw [h2, hmem], hl⟩
    · exfalso
      have hmem : ({ chan := c, byte := x, result := res } : DecCall) ∈ st.decCalls := by
        rw [hcalls]; simp
      have := hall _ hmem
      simp only at this
      rw [this] at hchk
      exact absurd hchk (by simp)

/-- The error `pipe` returns is never the `io.EOF` of a `Read`: unless the destination
itself answers a `Write` with `io.EOF`, `pipe` never returns `io.EOF`. -/
lemma pipeLoop_ne_EOF {D : Type} (write : D → List Byte → D × WriteResult)
    (hw : ∀ d p, (write d p).2.err ≠ some Error.EOF) :
    ∀ (src : Source) (dst : D) (buf : Byte), (pipeLoop write dst src buf).2 ≠ some Error.EOF := by
  intro src
  induction src with
  | nil => intro dst buf; simp [pipeLoop]
  | cons r rest ih =>
    intro dst buf
    unfold pipeLoop
    cases hr : r.err with
    | some e =>
      by_cases he : e = Error.EOF
      · simp [he]
      · simp [he]
    | none =>
      simp only
      have hw1 := hw dst [r.store buf]
      rcases hwr : write dst [r.store buf] with ⟨dst1, n, err⟩
      rw [hwr] at hw1
      cases err with
      | some e =>
        simp only
        intro h
        exact hw1 (by simpa using h)
      | none => exact ih dst1 (r.store buf)

/-- A reader's step neither looks at the mutex nor changes it. -/
lemma stepReader_ignores_lock (c : Chan) (st : State) (b : Bool) :
    stepReader c { st with lock := b } = { stepReader c st with lock := b } := by
  unfold stepReader
  cases c <;> simp only [State.reader, State.log]
  all_goals repeat' split
  all_goals rfl

/-! ## Stream: the properties -/

set_option maxRecDepth 20000 in
/-- C1 fails on the code. With "ab" on stdout and "c" on stderr, each ending in
end-of-stream, and no destination write failing, a schedule on which, after "a" is
written, the two readers run `bytes.Buffer.Write` on the shared capture buffer at the
same time (both read the length, both extend the slice, both copy) makes `Stream`
return and send the two bytes "ac": the byte "b" is lost, though both `pipe` calls
return nil, nothing is logged and the decorator has received all three bytes. On the
schedule on which the readers run one after the other the value sent is "abc". -/
theorem Stream_overlapping_writes_lose_byte :
    (Stream (Writer.reliable []) sampleTask (delivers [97, 98] Error.EOF)
        (delivers [99] Error.EOF) overlapping).caller = CallerPC.returned ∧
    (Stream (Writer.reliable []) sampleTask (delivers [97, 98] Error.EOF)
        (delivers [99] Error.EOF) overlapping).outClosed = true ∧
    (Stream (Writer.reliable []) sampleTask (delivers [97, 98] Error.EOF)
        (delivers [99] Error.EOF) overlapping).out = some [97, 99] ∧
    (Stream (Writer.reliable []) sampleTask (delivers [97, 98] Error.EOF)
        (delivers [99] Error.EOF) overlapping).rOut.pc = PC.done none ∧
    (Stream (Writer.reliable []) sampleTask (delivers [97, 98] Error.EOF)
        (delivers [99] Error.EOF) overlapping).rErr.pc = PC.done none ∧
    (Stream (Writer.reliable []) sampleTask (delivers [97, 98] Error.EOF)
        (delivers [99] Error.EOF) overlapping).diag = [] ∧
    (Stream (Writer.reliable []) sampleTask (delivers [97, 98] Error.EOF)
        (delivers [99] Error.EOF) overlapping).decorator.received = [97, 98, 99] ∧
    (Stream (Writer.reliable []) sampleTask (delivers [97, 98] Error.EOF)
        (delivers [99] Error.EOF) []).out = some [97, 98, 99] := by
  refine ⟨by decide, by decide, by decide, by decide, by decide, by decide, by decide, by decide⟩

set_option maxRecDepth 20000 in
/-- C2 fails on the code. With "abc" on stdout and "d" on stderr and no destination
failing, a schedule on which the stderr reader extends the slice of the shared capture
buffer from a length it read earlier makes the stdout reader's `bytes.Buffer.Write`
copy nothing for "c": `io.MultiWriter` turns that into `io.ErrShortWrite`, `pipe` on
stdout returns it, and the stdout log sink ends with "ab" only. With "abcd" on stdout
and "e" on stderr the same overlap one byte later makes the slice expression in
`bytes.Buffer.Write` panic: the process ends, `Stream` never returns, the stdout log
sink holds "abc" only and the stderr log sink nothing. -/
theorem Stream_overlapping_writes_starve_log_sinks :
    (Stream (Writer.reliable []) sampleTask (delivers abcBytes Error.EOF)
        (delivers [100] Error.EOF) staleLength).crashed = false ∧
    (Stream (Writer.reliable []) sampleTask (delivers abcBytes Error.EOF)
        (delivers [100] Error.EOF) staleLength).caller = CallerPC.returned ∧
    (Stream (Writer.reliable []) sampleTask (delivers abcBytes Error.EOF)
        (delivers [100] Error.EOF) staleLength).rOut.pc = PC.done (some Error.ErrShortWrite) ∧
    (Stream (Writer.reliable []) sampleTask (delivers abcBytes Error.EOF)
        (delivers [100] Error.EOF) staleLength).logStdout.received = [97, 98] ∧
    (Stream (Writer.reliable []) sampleTask (delivers abcBytes Error.EOF)
        (delivers [100] Error.EOF) staleLength).logStderr.received = [100] ∧
    (Stream (Writer.reliable []) sampleTask (delivers abcBytes Error.EOF)
        (delivers [100] Error.EOF) staleLength).out = some [97, 100] ∧
    (Stream (Writer.reliable []) sampleTask (delivers abcdBytes Error.EOF)
        (delivers [101] Error.EOF) staleLengthLate).crashed = true ∧
    (Stream (Writer.reliable []) sampleTask (delivers abcdBytes Error.EOF)
        (delivers [101] Error.EOF) staleLengthLate).caller = CallerPC.wait ∧
    (Stream (Writer.reliable []) sampleTask (delivers abcdBytes Error.EOF)
        (delivers [101] Error.EOF) staleLengthLate).out = none ∧
    (Stream (Writer.reliable []) sampleTask (delivers abcdBytes Error.EOF)
        (delivers [101] Error.EOF) staleLengthLate).logStdout.received = [97, 98, 99] ∧
    (Stream (Writer.reliable []) sampleTask (delivers abcdBytes Error.EOF)
        (delivers [101] Error.EOF) staleLengthLate).logStderr.received = [] := by
  refine ⟨by decide, by decide, by decide, by decide, by decide, by decide, by decide, by decide,
    by decide, by decide, by decide⟩

set_option maxRecDepth 20000 in
/-- C6, as stated, fails: the claim puts no condition on the destination. With a
decorator that accepts one `Write` and then returns an error, a stdout source that
delivers "abc" and then fails with "broken pipe", and a silent stderr, `pipe` on
stdout returns the decorator's error and never meets the read error; it has written
"ab" to the capture buffer and "a" to the stdout log sink, not "abc". -/
theorem Stream_read_error_needs_working_writers :
    (Stream (Writer.failingAfter 1 (Error.msg "tty gone")) sampleTask
        (delivers abcBytes (Error.msg "broken pipe")) (delivers [] Error.EOF) []).rOut.pc
      = PC.done (some (Error.msg "tty gone")) ∧
    (Stream (Writer.failingAfter 1 (Error.msg "tty gone")) sampleTask
        (delivers abcBytes (Error.msg "broken pipe")) (delivers [] Error.EOF) []).diag
      = [Error.msg "tty gone"] ∧
    (Stream (Writer.failingAfter 1 (Error.msg "tty gone")) sampleTask
        (delivers abcBytes (Error.msg "broken pipe")) (delivers [] Error.EOF) []).out
      = some [97, 98] ∧
    (Stream (Writer.failingAfter 1 (Error.msg "tty gone")) sampleTask
        (delivers abcBytes (Error.msg "broken pipe")) (delivers [] Error.EOF) []).logStdout.received
      = [97] := by
  refine ⟨by decide, by decide, by decide, by decide⟩

/-- C6, amended: when no destination write fails and at most one of the two channels
delivers bytes, a read error is not fatal and stays with its channel. If the stdout
source delivers `p` and then fails with an error `e` other than end-of-stream and the
stderr source delivers `q` and ends, one of `p` and `q` being empty, then under every
interleaving: `pipe` on stdout returns `e`, which is handed to `logrus.Debug` and is
the only diagnostic; `pipe` on stderr returns nil; the stdout log sink has received
exactly `p` and the stderr log sink exactly `q`; the decorator has received the bytes
delivered; `Stream` returns, closes `out`, and the value it sends is the bytes
delivered. And `pipe` never returns `io.EOF`, whatever its source, unless a `Write` of
its destination returns that value. -/
theorem Stream_read_error_isolated (decorator : Writer) (t : Task) (p q : List Byte)
    (e : Error) (sched : List Tid) (he : e ≠ Error.EOF) (hone : p = [] ∨ q = [])
    (hdec : decorator.Succeeds) (hlo : t.Log.Stdout.Succeeds) (hle : t.Log.Stderr.Succeeds) :
    (Stream decorator t (delivers p e) (delivers q Error.EOF) sched).rOut.pc
        = PC.done (some e) ∧
    (Stream decorator t (delivers p e) (delivers q Error.EOF) sched).rErr.pc = PC.done none ∧
    (Stream decorator t (delivers p e) (delivers q Error.EOF) sched).diag = [e] ∧
    (Stream decorator t (delivers p e) (delivers q Error.EOF) sched).logStdout.received
        = t.Log.Stdout.received ++ p ∧
    (Stream decorator t (delivers p e) (delivers q Error.EOF) sched).logStderr.received
        = t.Log.Stderr.received ++ q ∧
    (Stream decorator t (delivers p e) (delivers q Error.EOF) sched).decorator.received
        = decorator.received ++ (p ++ q) ∧
    (Stream decorator t (delivers p e) (delivers q Error.EOF) sched).caller
        = CallerPC.returned ∧
    (Stream decorator t (delivers p e) (delivers q Error.EOF) sched).outClosed = true ∧
    (Stream decorator t (delivers p e) (delivers q Error.EOF) sched).out = some (p ++ q) ∧
    (∀ (D : Type) (write : D → List Byte → D × WriteResult) (dst : D) (src : Source),
      (∀ d chunk, (write d chunk).2.err ≠ some Error.EOF) →
        (pipe write dst src).2 ≠ some Error.EOF) := by
  have hpipe : ∀ (D : Type) (write : D → List Byte → D × WriteResult) (dst : D) (src : Source),
      (∀ d chunk, (write d chunk).2.err ≠ some Error.EOF) →
        (pipe write dst src).2 ≠ some Error.EOF :=
    fun D write dst src hw => pipeLoop_ne_EOF write hw src dst 0
  have hdiag : ∀ r : State, r.rOut.pc = PC.done (some e) → r.rErr.pc = PC.done none →
      r.diag.length = r.rOut.failed + r.rErr.failed → e ∈ r.diag → r.diag = [e] := by
    intro r hpo hpe hcount hmem
    have hlen : r.diag.length = 1 := by
      rw [hcount]; simp [Reader.failed, hpo, hpe]
    match hd : r.diag, hlen, hmem with
    | [x], _, hm =>
      rw [hd] at hmem
      simp at hmem
      rw [hmem]
  rcases hone with hp | hq
  · subst hp
    obtain ⟨hinv, hret⟩ := Stream_ends t (delivers [] e) (delivers q Error.EOF) sched
      (Inv.init_stderr q Error.EOF e decorator t hle)
    generalize Stream decorator t (delivers [] e) (delivers q Error.EOF) sched = r at hinv hret
    obtain ⟨h1, h2, h3, h4, h5, h6, h7⟩ := hinv.final_ok hret hdec
    have hpo : r.rOut.pc = PC.done (some e) := by
      change (r.reader Chan.stdout).pc = _
      rw [show Chan.stdout = Chan.stderr.other from rfl, h4]; simp [endRet, he]
    have hpe : r.rErr.pc = PC.done none := by
      change (r.reader Chan.stderr).pc = _
      rw [h3]; simp [endRet]
    refine ⟨hpo, hpe, hdiag r hpo hpe hinv.diagCount (hinv.diagOut e hpo), ?_, h5, ?_, hret,
      h1, ?_, hpipe⟩
    · simpa using h6
    · simpa using h7
    · simpa using h2
  · subst hq
    obtain ⟨hinv, hret⟩ := Stream_ends t (delivers p e) (delivers [] Error.EOF) sched
      (Inv.init_stdout p e Error.EOF decorator t hlo)
    generalize Stream decorator t (delivers p e) (delivers [] Error.EOF) sched = r at hinv hret
    obtain ⟨h1, h2, h3, h4, h5, h6, h7⟩ := hinv.final_ok hret hdec
    have hpo : r.rOut.pc = PC.done (some e) := by
      change (r.reader Chan.stdout).pc = _
      rw [h3]; simp [endRet, he]
    have hpe : r.rErr.pc = PC.done none := by
      change (r.reader Chan.stderr).pc = _
      rw [show Chan.stderr = Chan.stdout.other from rfl, h4]; simp [endRet]
    refine ⟨hpo, hpe, hdiag r hpo hpe hinv.diagCount (hinv.diagOut e hpo), h5, ?_, ?_, hret,
      h1, ?_, hpipe⟩
    · simpa using h6
    · simpa using h7
    · simpa using h2

/-- Witness for C6 amended, scenario D with a silent stderr: stdout delivers "partial"
and then fails with "broken pipe". -/
theorem Stream_read_error_isolated_witness :
    Error.msg "broken pipe" ≠ Error.EOF ∧
    (Stream (Writer.reliable []) sampleTask (delivers brokenBytes (Error.msg "broken pipe"))
        (delivers [] Error.EOF) alternating).diag = [Error.msg "broken pipe"] ∧
    (Stream (Writer.reliable []) sampleTask (delivers brokenBytes (Error.msg "broken pipe"))
        (delivers [] Error.EOF) alternating).out = some (brokenBytes ++ []) :=
  have h := Stream_read_error_isolated (Writer.reliable []) sampleTask brokenBytes []
    (Error.msg "broken pipe") alternating (by decide) (Or.inr rfl)
    (fun _ _ => rfl) (fun _ _ => rfl) (fun _ _ => rfl)
  ⟨by decide, h.2.2.1, h.2.2.2.2.2.2.2.2.1⟩

set_option maxRecDepth 20000 in
/-- C7, as stated, fails: with a decorator that accepts one byte and then returns an
error, and "abc" on stdout, the stdout reader stops at "b": the decorator call on "b"
returned the error, `pipe` returned it, the capture holds "ab" and the stdout log sink
only "a", while with a decorator that never fails the capture is "abc". -/
theorem Stream_decorator_error_stops_reader :
    (Stream (Writer.failingAfter 1 (Error.msg "tty gone")) sampleTask
        (delivers abcBytes Error.EOF) (delivers [] Error.EOF) []).decCalls
      = [{ chan := Chan.stdout, byte := 97, result := { n := 1, err := none } },
         { chan := Chan.stdout, byte := 98,
           result := { n := 0, err := some (Error.msg "tty gone") } }] ∧
    (Stream (Writer.failingAfter 1 (Error.msg "tty gone")) sampleTask
        (delivers abcBytes Error.EOF) (delivers [] Error.EOF) []).rOut.pc
      = PC.done (some (Error.msg "tty gone")) ∧
    (Stream (Writer.failingAfter 1 (Error.msg "tty gone")) sampleTask
        (delivers abcBytes Error.EOF) (delivers [] Error.EOF) []).out = some [97, 98] ∧
    (Stream (Writer.failingAfter 1 (Error.msg "tty gone")) sampleTask
        (delivers abcBytes Error.EOF) (delivers [] Error.EOF) []).logStdout.received = [97] ∧
    (Stream (Writer.reliable []) sampleTask
        (delivers abcBytes Error.EOF) (delivers [] Error.EOF) []).out = some [97, 98, 99] := by
  refine ⟨by decide, by decide, by decide, by decide, by decide⟩

/-- C7, amended: a decorator write error is logged and ends the reader of that channel.
With sources that deliver `p` and `q` and end, at most one of them delivering bytes,
and log sinks that never fail, under every interleaving `Stream` returns and closes
`out`; if the decorator's `Write` returned an error `e` on a byte of a channel, then
`pipe` on that channel returned `e`, `e` was handed to `logrus.Debug`, the value sent
on `out` is the bytes of that channel up to and including that byte, and the log sink
of the channel holds them up to but excluding it, so that no later byte has reached
either; if every decorator write was accepted, both `pipe` calls returned nil, the
value sent is all the bytes delivered, and each log sink holds its channel's bytes. -/
theorem Stream_decorator_error_ends_reader (decorator : Writer) (t : Task) (p q : List Byte)
    (sched : List Tid) (hone : p = [] ∨ q = [])
    (hlo : t.Log.Stdout.Succeeds) (hle : t.Log.Stderr.Succeeds) :
    (Stream decorator t (delivers p Error.EOF) (delivers q Error.EOF) sched).caller
        = CallerPC.returned ∧
    (Stream decorator t (delivers p Error.EOF) (delivers q Error.EOF) sched).outClosed = true ∧
    (∀ (d : DecCall) (e : Error),
      d ∈ (Stream decorator t (delivers p Error.EOF) (delivers q Error.EOF) sched).decCalls →
      d.result.err = some e →
        ((Stream decorator t (delivers p Error.EOF) (delivers q Error.EOF) sched).reader
            d.chan).pc = PC.done (some e) ∧
        e ∈ (Stream decorator t (delivers p Error.EOF) (delivers q Error.EOF) sched).diag ∧
        ∃ a b, d.chan.bytes p q = a ++ d.byte :: b ∧
          (Stream decorator t (delivers p Error.EOF) (delivers q Error.EOF) sched).out
              = some (a ++ [d.byte]) ∧
          ((Stream decorator t (delivers p Error.EOF) (delivers q Error.EOF) sched).log
              d.chan).received = d.chan.logged t ++ a) ∧
    ((∀ d ∈ (Stream decorator t (delivers p Error.EOF) (delivers q Error.EOF) sched).decCalls,
        multiWriterCheck [d.byte] d.result = none) →
      (Stream decorator t (delivers p Error.EOF) (delivers q Error.EOF) sched).rOut.pc
          = PC.done none ∧
      (Stream decorator t (delivers p Error.EOF) (delivers q Error.EOF) sched).rErr.pc
          = PC.done none ∧
      (Stream decorator t (delivers p Error.EOF) (delivers q Error.EOF) sched).out
          = some (p ++ q) ∧
      (Stream decorator t (delivers p Error.EOF) (delivers q Error.EOF) sched).logStdout.received
          = t.Log.Stdout.received ++ p ∧
      (Stream decorator t (delivers p Error.EOF) (delivers q Error.EOF) sched).logStderr.received
          = t.Log.Stderr.received ++ q) := by
  rcases hone with hp | hq
  · subst hp
    obtain ⟨hinv, hret⟩ := Stream_ends t (delivers [] Error.EOF) (delivers q Error.EOF) sched
      (Inv.init_stderr q Error.EOF Error.EOF decorator t hle)
    generalize Stream decorator t (delivers [] Error.EOF) (delivers q Error.EOF) sched = r
      at hinv hret
    obtain ⟨h1, h2, h3, h4, h5⟩ := hinv.final_calls hret
    refine ⟨hret, h1, ?_, ?_⟩
    · intro d e hd herr
      obtain ⟨hch, hpc, hmem, a, b, hq, hout, hl⟩ := h4 d e hd herr
      rw [hch]
      exact ⟨hpc, hmem, a, b, hq, hout, hl⟩
    · intro hall
      obtain ⟨hpc, hout, hl⟩ := h5 hall
      refine ⟨?_, ?_, by simpa using hout, by simpa using h3, hl⟩
      · change (r.reader Chan.stderr.other).pc = _
        rw [h2]; simp [endRet]
      · change (r.reader Chan.stderr).pc = _
        rw [hpc]; simp [endRet]
  · subst hq
    obtain ⟨hinv, hret⟩ := Stream_ends t (delivers p Error.EOF) (delivers [] Error.EOF) sched
      (Inv.init_stdout p Error.EOF Error.EOF decorator t hlo)
    generalize Stream decorator t (delivers p Error.EOF) (delivers [] Error.EOF) sched = r
      at hinv hret
    obtain ⟨h1, h2, h3, h4, h5⟩ := hinv.final_calls hret
    refine ⟨hret, h1, ?_, ?_⟩
    · intro d e hd herr
      obtain ⟨hch, hpc, hmem, a, b, hq, hout, hl⟩ := h4 d e hd herr
      rw [hch]
      exact ⟨hpc, hmem, a, b, hq, hout, hl⟩
    · intro hall
      obtain ⟨hpc, hout, hl⟩ := h5 hall
      refine ⟨?_, ?_, by simpa using hout, hl, by simpa using h3⟩
      · change (r.reader Chan.stdout).pc = _
        rw [hpc]; simp [endRet]
      · change (r.reader Chan.stdout.other).pc = _
        rw [h2]; simp [endRet]

set_option maxRecDepth 20000 in
/-- Witness for C7 amended: the decorator accepts one byte and then fails; "abc" on
stdout is cut after "b", and the value sent on `out` is "ab". -/
theorem Stream_decorator_error_ends_reader_witness :
    ((Stream (Writer.failingAfter 1 (Error.msg "tty gone")) sampleTask
        (delivers abcBytes Error.EOF) (delivers [] Error.EOF) []).reader Chan.stdout).pc
      = PC.done (some (Error.msg "tty gone")) ∧
    Error.msg "tty gone" ∈ (Stream (Writer.failingAfter 1 (Error.msg "tty gone")) sampleTask
        (delivers abcBytes Error.EOF) (delivers [] Error.EOF) []).diag ∧
    ∃ a b, Chan.stdout.bytes abcBytes [] = a ++ (98 : Byte) :: b ∧
      (Stream (Writer.failingAfter 1 (Error.msg "tty gone")) sampleTask
        (delivers abcBytes Error.EOF) (delivers [] Error.EOF) []).out = some (a ++ [98]) ∧
      ((Stream (Writer.failingAfter 1 (Error.msg "tty gone")) sampleTask
        (delivers abcBytes Error.EOF) (delivers [] Error.EOF) []).log Chan.stdout).received
          = Chan.stdout.logged sampleTask ++ a :=
  (Stream_decorator_error_ends_reader (Writer.failingAfter 1 (Error.msg "tty gone")) sampleTask
      abcBytes [] [] (Or.inr rfl) (fun _ _ => rfl) (fun _ _ => rfl)).2.2.1
    { chan := Chan.stdout, byte := 98, result := { n := 0, err := some (Error.msg "tty gone") } }
    (Error.msg "tty gone") (by decide) rfl

set_option maxRecDepth 20000 in
/-- C9 fails on the code. After the caller has released the mutex and each reader has
read one byte, both readers stand at `buf.Write` on the shared `bytes.Buffer` with the
mutex free, and either may write first: the two orders give "ab" and "ba". A reader
also writes to the buffer while the caller still holds the mutex. The same state is
reached whenever both sources deliver at least one byte, and no step of a reader looks
at the mutex or changes it. Nor does anything keep the two writes apart: with "a"
already in the buffer and both readers at `buf.Write` with "b" and "c", the statements
of the two `bytes.Buffer.Write` calls can alternate, after which the buffer holds "ac"
and both readers go on to the decorator. -/
theorem Stream_capture_writes_unserialized :
    bothAtBufferWrite.lock = false ∧
    bothAtBufferWrite.rOut.pc = PC.wbuf ∧ bothAtBufferWrite.rErr.pc = PC.wbuf ∧
    (exec bothAtBufferWrite (writeAlone Chan.stdout ++ writeAlone Chan.stderr)).buf.Bytes
      = [97, 98] ∧
    (exec bothAtBufferWrite (writeAlone Chan.stderr ++ writeAlone Chan.stdout)).buf.Bytes
      = [98, 97] ∧
    readerUnderLock.lock = true ∧ readerUnderLock.rOut.pc = PC.wbuf ∧
    (exec readerUnderLock (writeAlone Chan.stdout)).buf.Bytes = [97] ∧
    (exec readerUnderLock (writeAlone Chan.stdout)).lock = true ∧
    (∀ (decorator : Writer) (t : Task) (x y : Byte) (p q : List Byte) (f1 f2 : Error),
      (exec (State.init decorator t (delivers (x :: p) f1) (delivers (y :: q) f2))
          [Tid.caller, Tid.caller, Tid.caller, Tid.caller, Tid.reader Chan.stdout,
           Tid.reader Chan.stderr]).lock = false ∧
      (exec (State.init decorator t (delivers (x :: p) f1) (delivers (y :: q) f2))
          [Tid.caller, Tid.caller, Tid.caller, Tid.caller, Tid.reader Chan.stdout,
           Tid.reader Chan.stderr]).rOut.pc = PC.wbuf ∧
      (exec (State.init decorator t (delivers (x :: p) f1) (delivers (y :: q) f2))
          [Tid.caller, Tid.caller, Tid.caller, Tid.caller, Tid.reader Chan.stdout,
           Tid.reader Chan.stderr]).rErr.pc = PC.wbuf) ∧
    (∀ (c : Chan) (st : State) (b : Bool),
      stepReader c { st with lock := b } = { stepReader c st with lock := b }) ∧
    bothAtLaterWrite.lock = false ∧ bothAtLaterWrite.buf.Bytes = [97] ∧
    bothAtLaterWrite.rOut.pc = PC.wbuf ∧ bothAtLaterWrite.rErr.pc = PC.wbuf ∧
    (exec bothAtLaterWrite writesOverlap).buf.Bytes = [97, 99] ∧
    (exec bothAtLaterWrite writesOverlap).rOut.pc = PC.wdec ∧
    (exec bothAtLaterWrite writesOverlap).rErr.pc = PC.wdec := by
  refine ⟨by decide, by decide, by decide, by decide, by decide, by decide, by decide, by decide,
    by decide, fun _ _ _ _ _ _ _ _ => ⟨rfl, rfl, rfl⟩, stepReader_ignores_lock, by decide,
    by decide, by decide, by decide, by decide, by decide, by decide⟩

end Taskctl
